import Mathlib

/-
Verification of the LaTeX-project validation engine: a shallow embedding of
the citation validator, the structure parser and the content-target verifier
(`validate_citations.py`, `parse_latex_structure.py`,
`verify_content_targets.py`), together with theorems settling the frozen
claims about the specification.

Conventions of the embedding:
  - Python strings are Lean `String`s; scanning routines work on `List Char`.
  - Python character classes are modelled at the ASCII level, matching the
    ASCII-only data exercised by the claims (the sources put no non-ASCII
    characters into patterns).
  - Python floats are modelled as exact rationals; every score produced by
    the sources is a ratio of small naturals, and the only float operations
    used are division and order comparison.
  - Scanners that jump over a matched region recurse on a structural fuel
    argument initialised to the input length plus one; every loop of the
    source consumes at least one character per iteration, so the fuel is
    never exhausted before the input is.  Exhaustion cases return the
    accumulated result, mirroring loop exit.
-/

/-- ASCII whitespace, the characters matched by the Python patterns and
string methods used in the sources (space, tab, newline, carriage return,
form feed, vertical tab). -/
def isPyWs (c : Char) : Bool :=
  c == ' ' || c == '\t' || c == '\n' || c == '\x0d' || c == '\x0c' || c == '\x0b'

/-- Word characters of the Python patterns (ASCII letters, digits, underscore). -/
def isWordChar (c : Char) : Bool :=
  c.isAlphanum || c == '_'

/-- Drop leading ASCII whitespace, as Python `str.lstrip()`. -/
def pyLStrip (s : List Char) : List Char :=
  s.dropWhile isPyWs

/-- Python `str.strip()`: drop whitespace at both ends. -/
def pyStripL (s : List Char) : List Char :=
  ((s.dropWhile isPyWs).reverse.dropWhile isPyWs).reverse

/-- Python `str.strip()` on strings. -/
def pyStrip (s : String) : String :=
  (pyStripL s.data).asString

/-- Python `str.lower()` (ASCII case folding, all data in scope is ASCII). -/
def pyLower (s : String) : String :=
  (s.data.map Char.toLower).asString

/-- Helper for Python `str.split()`: whitespace-run splitting with no empty
pieces.  `acc` is the reversed current word. -/
def pySplitGo (acc : List Char) : List Char → List (List Char)
  | [] => if acc.isEmpty then [] else [acc.reverse]
  | c :: cs =>
    if isPyWs c then
      if acc.isEmpty then pySplitGo [] cs else acc.reverse :: pySplitGo [] cs
    else
      pySplitGo (c :: acc) cs

/-- Python `str.split()` with no argument. -/
def pySplit (s : String) : List String :=
  (pySplitGo [] s.data).map List.asString

/-- Python `" ".join(value.split())`: collapse internal whitespace runs to a
single space and strip the ends. -/
def pyCollapse (s : String) : String :=
  String.intercalate " " (pySplit s)

/-- Python `str.replace(old, new)` via a one-character-per-step state
machine: `skip` counts characters that belong to an already-emitted match
and must still be consumed. -/
def pyReplaceGo (pat rep : List Char) : Nat → List Char → List Char
  | _ + 1, [] => []
  | k + 1, _ :: cs => pyReplaceGo pat rep k cs
  | 0, [] => []
  | 0, c :: cs =>
    if pat ≠ [] ∧ List.isPrefixOf pat (c :: cs) then
      rep ++ pyReplaceGo pat rep (pat.length - 1) cs
    else
      c :: pyReplaceGo pat rep 0 cs

/-- Python `str.replace(old, new)` (all non-overlapping occurrences, left to
right). -/
def pyReplace (s pat rep : String) : String :=
  (pyReplaceGo pat.data rep.data 0 s.data).asString

/-- Count occurrences of a character, as Python `str.count` on a prefix. -/
def countCh (c : Char) (s : List Char) : Nat :=
  (s.filter (fun x => x == c)).length

/-- The comment stripper `_strip_comment`, shared verbatim by
`validate_citations.py`, `parse_latex_structure.py` and (with a different
local variable name) `verify_content_targets.py`:
replace the escaped comment character with a sentinel, cut at the first
remaining comment character, restore the sentinel. -/
def stripComment (line : String) : String :=
  let escaped := pyReplace line "\\%" "__PERCENT__"
  let code := (escaped.data.takeWhile (fun c => c ≠ '%')).asString
  pyReplace code "__PERCENT__" "\\%"

/-- Modelled from the spec (section 4.1): a backslash-escaped comment
character is literal and preserved; the first unescaped comment character
and everything after it on the line is discarded; content before that point
is returned unchanged. -/
def stripCommentSpec (line : String) : String :=
  (stripCommentSpecGo line.data).asString
where
  stripCommentSpecGo : List Char → List Char
    | [] => []
    | '\\' :: '%' :: rest => '\\' :: '%' :: stripCommentSpecGo rest
    | '%' :: _ => []
    | c :: rest => c :: stripCommentSpecGo rest

/-- C5: the comment stripper is claimed to preserve, character for
character, all content before the first unescaped comment character, for
every possible line content.  The sentinel used by the implementation
falsifies this: a line equal to the sentinel itself contains no comment
character at all, yet is rewritten to an escaped comment character.  The
contract function derived from the spec leaves it unchanged. -/
theorem stripComment_sentinel_bug :
    stripComment "__PERCENT__" = "\\%" ∧
    countCh '%' "__PERCENT__".data = 0 ∧
    stripCommentSpec "__PERCENT__" = "__PERCENT__" ∧
    stripComment "__PERCENT__" ≠ stripCommentSpec "__PERCENT__" := by
  refine ⟨by decide, by decide, by decide, by decide⟩

/-- First occurrence of a character: `some (before, after)` splits the list
around the first occurrence, `none` if absent. -/
def splitAtChar (c : Char) : List Char → Option (List Char × List Char)
  | [] => none
  | x :: xs =>
    if x = c then some ([], xs)
    else (splitAtChar c xs).map (fun p => (x :: p.1, p.2))

/-- Attempt of the formatting-command pattern of `_normalize_title`
(backslash, letters, optional star, optional bracketed option, braced
argument) at the head of the input; returns the captured argument text and
the input after the match.  The pattern is deterministic: every quantifier
is over a character class disjoint from what must follow it. -/
def matchCmd (s : List Char) : Option (List Char × List Char) :=
  match s with
  | '\\' :: r0 =>
    let letters := r0.takeWhile (fun c => c.isAlpha)
    if letters.isEmpty then none
    else
      let r1 := r0.drop letters.length
      let r2 := match r1 with
        | '*' :: t => t
        | _ => r1
      let r3? : Option (List Char) := match r2 with
        | '[' :: t => (splitAtChar ']' t).map Prod.snd
        | _ => some r2
      match r3? with
      | some ('{' :: t) => splitAtChar '}' t
      | _ => none
  | _ => none

/-- Fuelled scan of `re.sub(pattern, r"\2", ...)` for the formatting-command
pattern: on a match emit the captured argument (not rescanned) and continue
after the match, otherwise emit one character and advance.  Every match
consumes at least four characters, so fuel = length + 1 is never exhausted;
the fuel-0 case returns the remaining input unscanned. -/
def cmdSubFuel : Nat → List Char → List Char
  | 0, s => s
  | n + 1, s =>
    match matchCmd s with
    | some (cap, rest) => cap ++ cmdSubFuel n rest
    | none =>
      match s with
      | [] => []
      | c :: cs => c :: cmdSubFuel n cs

/-- Collapse whitespace runs to single spaces, as `re.sub(r"\s+", " ", ...)`;
the flag records whether the previous character was inside a run. -/
def wsRuns : Bool → List Char → List Char
  | _, [] => []
  | inRun, c :: cs =>
    if isPyWs c then
      if inRun then wsRuns true cs else ' ' :: wsRuns true cs
    else c :: wsRuns false cs

/-- The title normalizer `_normalize_title` of `validate_citations.py`:
strip formatting-command wrappers keeping their argument, delete brace
characters, replace non-alphanumerics by spaces, collapse whitespace, strip
and lower-case.  (The Python early return for an empty title is subsumed:
every stage maps empty to empty.) -/
def normalizeTitle (title : String) : String :=
  let c1 := cmdSubFuel (title.data.length + 1) title.data
  let c2 := c1.filter (fun c => ¬ (c == '{' || c == '}'))
  let c3 := c2.map (fun c => if c.isAlphanum || isPyWs c then c else ' ')
  let c4 := wsRuns false c3
  ((pyStripL c4).map Char.toLower).asString

/-- The similarity scorer `_title_match_score`: 0 if either normalized title
is empty, 1 if they are equal, 9/10 if one contains the other, otherwise the
Jaccard index of the whitespace-token sets.  Floats are modelled as exact
rationals; ratios are written with mkRat (equal to the division for nonzero
denominators) so that concrete instances evaluate in the kernel. -/
def titleMatchScore (a b : String) : ℚ :=
  if normalizeTitle a = "" ∨ normalizeTitle b = "" then 0
  else if normalizeTitle a = normalizeTitle b then 1
  else if (normalizeTitle a).data <:+: (normalizeTitle b).data ∨
      (normalizeTitle b).data <:+: (normalizeTitle a).data then mkRat 9 10
  else if (pySplit (normalizeTitle a)).toFinset = ∅ ∨
      (pySplit (normalizeTitle b)).toFinset = ∅ then 0
  else mkRat (((pySplit (normalizeTitle a)).toFinset ∩ (pySplit (normalizeTitle b)).toFinset).card)
    (((pySplit (normalizeTitle a)).toFinset ∪ (pySplit (normalizeTitle b)).toFinset).card)

/-- C6 counterexample: the claim asserts reflexivity `score(t, t) = 1.0` for
every nonempty title `t`, but a nonempty title consisting only of
punctuation normalizes to the empty string and scores 0 against itself. -/
theorem titleMatchScore_not_reflexive_on_punctuation :
    titleMatchScore "." "." = 0 ∧ ("." : String) ≠ "" := by
  refine ⟨by decide, by decide⟩

/-- C6 (amended): the similarity scorer is reflexive on every title whose
normalized form is nonempty, symmetric in all branches, and returns 0
whenever the first argument is empty. -/
theorem titleMatchScore_props (a b t : String) :
    (normalizeTitle t ≠ "" → titleMatchScore t t = 1) ∧
    titleMatchScore a b = titleMatchScore b a ∧
    titleMatchScore "" b = 0 := by
  refine ⟨?_, ?_, ?_⟩
  · intro ht
    unfold titleMatchScore
    simp [ht]
  · unfold titleMatchScore
    by_cases h1 : normalizeTitle a = ""
    · by_cases h2 : normalizeTitle b = "" <;> simp [h1, h2]
    · by_cases h2 : normalizeTitle b = ""
      · simp [h1, h2]
      · have e1 : ¬ (normalizeTitle a = "" ∨ normalizeTitle b = "") := by simp [h1, h2]
        have e2 : ¬ (normalizeTitle b = "" ∨ normalizeTitle a = "") := by simp [h1, h2]
        rw [if_neg e1, if_neg e2]
        by_cases h3 : normalizeTitle a = normalizeTitle b
        · rw [if_pos h3, if_pos h3.symm]
        · have h4 : ¬ normalizeTitle b = normalizeTitle a := fun h => h3 h.symm
          rw [if_neg h3, if_neg h4]
          by_cases h5 : (normalizeTitle a).data <:+: (normalizeTitle b).data ∨
              (normalizeTitle b).data <:+: (normalizeTitle a).data
          · rw [if_pos h5, if_pos (Or.comm.mp h5)]
          · rw [if_neg h5, if_neg (fun h => h5 (Or.comm.mp h))]
            rw [Finset.inter_comm, Finset.union_comm]
            by_cases ha : (pySplit (normalizeTitle a)).toFinset = ∅
            · by_cases hb : (pySplit (normalizeTitle b)).toFinset = ∅ <;>
                simp [ha, hb]
            · by_cases hb : (pySplit (normalizeTitle b)).toFinset = ∅ <;>
                simp [ha, hb]
  · unfold titleMatchScore
    have h : normalizeTitle "" = "" := by decide
    simp [h]

/-- C6 witness: the amended properties evaluated at concrete titles. -/
theorem titleMatchScore_props_witness :
    titleMatchScore "Deep Learning" "Deep Learning" = 1 ∧
    titleMatchScore "Deep" "Learning" = titleMatchScore "Learning" "Deep" ∧
    titleMatchScore "" "Anything" = 0 :=
  ⟨(titleMatchScore_props "x" "y" "Deep Learning").1 (by decide),
   (titleMatchScore_props "Deep" "Learning" "t").2.1,
   (titleMatchScore_props "x" "Anything" "t").2.2⟩

/-- Lexicographic comparison of character lists by code point, the order
Python `sorted` uses on strings. -/
def lexLe : List Char → List Char → Bool
  | [], _ => true
  | _ :: _, [] => false
  | a :: as, b :: bs =>
    if a.val < b.val then true else if b.val < a.val then false else lexLe as bs

/-- Ordered insertion for `sortStr`. -/
def insStr (a : String) : List String → List String
  | [] => [a]
  | b :: bs => if lexLe a.data b.data then a :: b :: bs else b :: insStr a bs

/-- Python `sorted` on a list of strings (insertion sort; the sources sort
only duplicate-free key sets, where any correct sort agrees). -/
def sortStr : List String → List String
  | [] => []
  | x :: xs => insStr x (sortStr xs)

theorem insStr_perm (a : String) (l : List String) : List.Perm (insStr a l) (a :: l) := by
  induction l with
  | nil => rfl
  | cons b bs ih =>
    unfold insStr
    by_cases h : lexLe a.data b.data
    · rw [if_pos h]
    · rw [if_neg h]
      exact (ih.cons b).trans (List.Perm.swap a b bs)

theorem sortStr_perm (l : List String) : List.Perm (sortStr l) l := by
  induction l with
  | nil => rfl
  | cons x xs ih => exact (insStr_perm x (sortStr xs)).trans (ih.cons x)

theorem mem_sortStr {k : String} {l : List String} : k ∈ sortStr l ↔ k ∈ l :=
  (sortStr_perm l).mem_iff

theorem nodup_sortStr {l : List String} (h : l.Nodup) : (sortStr l).Nodup :=
  ((sortStr_perm l).nodup_iff).mpr h

/-- Python set difference followed by `sorted`, as in
`sorted(cited_keys - bib_keys)`. -/
def sortedDiff (xs ys : List String) : List String :=
  sortStr (xs.dedup.filter (fun k => decide (k ∉ ys)))

theorem mem_sortedDiff {k : String} {xs ys : List String} :
    k ∈ sortedDiff xs ys ↔ k ∈ xs ∧ k ∉ ys := by
  unfold sortedDiff
  rw [mem_sortStr, List.mem_filter, List.mem_dedup, decide_eq_true_iff]

theorem nodup_sortedDiff (xs ys : List String) : (sortedDiff xs ys).Nodup :=
  nodup_sortStr (List.Nodup.filter _ (List.nodup_dedup xs))

/-- Splitting characterisation of `List.find?`: a found element splits the
list, with the predicate false on everything before it. -/
theorem find?_split {α : Type} {p : α → Bool} :
    ∀ {l : List α} {a : α}, l.find? p = some a →
      ∃ l1 l2, l = l1 ++ a :: l2 ∧ ∀ x ∈ l1, p x = false := by
  intro l
  induction l with
  | nil => intro a h; simp [List.find?] at h
  | cons x xs ih =>
    intro a h
    rw [List.find?] at h
    by_cases hx : p x
    · rw [hx] at h
      simp at h
      exact ⟨[], xs, by simp [h], by simp⟩
    · rw [Bool.not_eq_true] at hx
      rw [hx] at h
      obtain ⟨l1, l2, heq, hall⟩ := ih h
      exact ⟨x :: l1, l2, by simp [heq], by
        intro y hy
        rcases List.mem_cons.mp hy with rfl | hy2
        · exact hx
        · exact hall y hy2⟩

namespace VC

/-- A citation occurrence extracted by `_extract_citations` of
`validate_citations.py`: multiple occurrences of the same key are kept. -/
structure Citation where
  key : String
  command : String
  file : String
  line : Nat
deriving DecidableEq, Repr

/-- The `BibEntry` dataclass; fields absent in source default to "". -/
structure BibEntry where
  key : String
  entryType : String
  file : String
  line : Nat
  title : String := ""
  author : String := ""
  year : String := ""
  doi : String := ""
  arxiv : String := ""
deriving DecidableEq, Repr

/-- One element of the `local_issues` list built in `main`. -/
structure LocalIssue where
  itype : String
  severity : String
  key : String
  file : String
  line : Nat
  message : String := ""
deriving DecidableEq, Repr

/-- Python `bib_key_map = {entry.key: entry for entry in bib_entries}`:
a later entry with the same key silently overwrites an earlier one, so
lookup returns the last entry bearing the key. -/
def bibKeyLookup (bes : List BibEntry) (k : String) : Option BibEntry :=
  bes.reverse.find? (fun e => e.key == k)

/-- `sorted(cited_keys - bib_keys)` of `main`. -/
def undefinedKeys (cs : List Citation) (bes : List BibEntry) : List String :=
  sortedDiff (cs.map (fun c => c.key)) (bes.map (fun e => e.key))

/-- `sorted(bib_keys - cited_keys)` of `main`. -/
def uncitedKeys (cs : List Citation) (bes : List BibEntry) : List String :=
  sortedDiff (bes.map (fun e => e.key)) (cs.map (fun c => c.key))

/-- The `undefined_citation` issues: one per key, anchored at
`next(c for c in citations if c["key"] == key)`, the first occurrence.
The fallback branch is unreachable (every undefined key is a citation key)
and mirrors the fact that Python `next` would fault there. -/
def undefinedIssues (cs : List Citation) (bes : List BibEntry) : List LocalIssue :=
  (undefinedKeys cs bes).map fun k =>
    match cs.find? (fun c => c.key == k) with
    | some c => ⟨"undefined_citation", "error", k, c.file, c.line, ""⟩
    | none => ⟨"undefined_citation", "error", k, "", 0, ""⟩

/-- The `uncited_bibliography_entry` issues: one per key, anchored at
`bib_key_map[key]`.  The fallback branch is unreachable. -/
def uncitedIssues (cs : List Citation) (bes : List BibEntry) : List LocalIssue :=
  (uncitedKeys cs bes).map fun k =>
    match bibKeyLookup bes k with
    | some e => ⟨"uncited_bibliography_entry", "warning", k, e.file, e.line, ""⟩
    | none => ⟨"uncited_bibliography_entry", "warning", k, "", 0, ""⟩

/-- The `citation_style_generic_cite` issues: one per occurrence whose
command lower-cases to exactly "cite". -/
def styleIssues (cs : List Citation) : List LocalIssue :=
  (cs.filter (fun c => pyLower c.command == "cite")).map fun c =>
    ⟨"citation_style_generic_cite", "info", c.key, c.file, c.line,
      "Consider replacing \\cite with \\citep or \\citet based on sentence usage."⟩

/-- The full `local_issues` list of `main`: undefined citations, then
uncited entries, then style issues. -/
def localIssues (cs : List Citation) (bes : List BibEntry) : List LocalIssue :=
  undefinedIssues cs bes ++ uncitedIssues cs bes ++ styleIssues cs

theorem keys_of_map_anchor {f : String → LocalIssue} (hf : ∀ k, (f k).key = k) :
    ∀ l : List String, (l.map f).map (fun i => i.key) = l := by
  intro l
  induction l with
  | nil => rfl
  | cons x xs ih => simp [hf, ih]

theorem undefinedIssues_key (cs : List Citation) (k : String) :
    ((match cs.find? (fun c : Citation => c.key == k) with
      | some c => (⟨"undefined_citation", "error", k, c.file, c.line, ""⟩ : LocalIssue)
      | none => ⟨"undefined_citation", "error", k, "", 0, ""⟩)).key = k := by
  cases cs.find? (fun c : Citation => c.key == k) <;> rfl

theorem uncitedIssues_key (bes : List BibEntry) (k : String) :
    ((match bibKeyLookup bes k with
      | some e => (⟨"uncited_bibliography_entry", "warning", k, e.file, e.line, ""⟩ : LocalIssue)
      | none => ⟨"uncited_bibliography_entry", "warning", k, "", 0, ""⟩)).key = k := by
  cases bibKeyLookup bes k <;> rfl

theorem filter_localIssues_undef (cs : List Citation) (bes : List BibEntry) :
    (localIssues cs bes).filter (fun i => i.itype == "undefined_citation") =
      undefinedIssues cs bes := by
  unfold localIssues
  rw [List.filter_append, List.filter_append]
  have h1 : (undefinedIssues cs bes).filter (fun i => i.itype == "undefined_citation") =
      undefinedIssues cs bes := by
    apply List.filter_eq_self.mpr
    intro i hi
    obtain ⟨k, _, rfl⟩ := List.mem_map.mp hi
    cases cs.find? (fun c : Citation => c.key == k) <;> rfl
  have h2 : (uncitedIssues cs bes).filter (fun i => i.itype == "undefined_citation") = [] := by
    apply List.filter_eq_nil_iff.mpr
    intro i hi
    obtain ⟨k, _, rfl⟩ := List.mem_map.mp hi
    cases bibKeyLookup bes k <;> simp only [Bool.not_eq_true] <;> rfl
  have h3 : (styleIssues cs).filter (fun i => i.itype == "undefined_citation") = [] := by
    apply List.filter_eq_nil_iff.mpr
    intro i hi
    obtain ⟨c, _, rfl⟩ := List.mem_map.mp hi
    simp only [Bool.not_eq_true]
    rfl
  rw [h1, h2, h3, List.append_nil, List.append_nil]

theorem filter_localIssues_unc (cs : List Citation) (bes : List BibEntry) :
    (localIssues cs bes).filter (fun i => i.itype == "uncited_bibliography_entry") =
      uncitedIssues cs bes := by
  unfold localIssues
  rw [List.filter_append, List.filter_append]
  have h1 : (undefinedIssues cs bes).filter
      (fun i => i.itype == "uncited_bibliography_entry") = [] := by
    apply List.filter_eq_nil_iff.mpr
    intro i hi
    obtain ⟨k, _, rfl⟩ := List.mem_map.mp hi
    cases cs.find? (fun c : Citation => c.key == k) <;> simp only [Bool.not_eq_true] <;> rfl
  have h2 : (uncitedIssues cs bes).filter
      (fun i => i.itype == "uncited_bibliography_entry") = uncitedIssues cs bes := by
    apply List.filter_eq_self.mpr
    intro i hi
    obtain ⟨k, _, rfl⟩ := List.mem_map.mp hi
    cases bibKeyLookup bes k <;> rfl
  have h3 : (styleIssues cs).filter
      (fun i => i.itype == "uncited_bibliography_entry") = [] := by
    apply List.filter_eq_nil_iff.mpr
    intro i hi
    obtain ⟨c, _, rfl⟩ := List.mem_map.mp hi
    simp only [Bool.not_eq_true]
    rfl
  rw [h1, h2, h3, List.append_nil, List.nil_append]

end VC

namespace VC

theorem undefinedIssue_of_find {cs : List Citation} {k : String} {c0 : Citation}
    (h : cs.find? (fun c : Citation => c.key == k) = some c0) :
    (match cs.find? (fun c : Citation => c.key == k) with
      | some c => (⟨"undefined_citation", "error", k, c.file, c.line, ""⟩ : LocalIssue)
      | none => ⟨"undefined_citation", "error", k, "", 0, ""⟩) =
      ⟨"undefined_citation", "error", k, c0.file, c0.line, ""⟩ := by
  rw [h]

theorem uncitedIssue_of_lookup {bes : List BibEntry} {k : String} {e0 : BibEntry}
    (h : bibKeyLookup bes k = some e0) :
    (match bibKeyLookup bes k with
      | some e => (⟨"uncited_bibliography_entry", "warning", k, e.file, e.line, ""⟩ : LocalIssue)
      | none => ⟨"uncited_bibliography_entry", "warning", k, "", 0, ""⟩) =
      ⟨"uncited_bibliography_entry", "warning", k, e0.file, e0.line, ""⟩ := by
  rw [h]

theorem mem_undefinedKeys (cs : List Citation) (bes : List BibEntry) (k : String) :
    k ∈ undefinedKeys cs bes ↔ ((∃ c ∈ cs, c.key = k) ∧ ¬ ∃ e ∈ bes, e.key = k) := by
  have h : k ∈ sortedDiff (cs.map fun c => c.key) (bes.map fun e => e.key) ↔
      (k ∈ cs.map fun c => c.key) ∧ ¬ (k ∈ bes.map fun e => e.key) := mem_sortedDiff
  rw [show undefinedKeys cs bes =
      sortedDiff (cs.map fun c => c.key) (bes.map fun e => e.key) from rfl, h]
  simp [List.mem_map]

theorem mem_uncitedKeys (cs : List Citation) (bes : List BibEntry) (k : String) :
    k ∈ uncitedKeys cs bes ↔ ((∃ e ∈ bes, e.key = k) ∧ ¬ ∃ c ∈ cs, c.key = k) := by
  have h : k ∈ sortedDiff (bes.map fun e => e.key) (cs.map fun c => c.key) ↔
      (k ∈ bes.map fun e => e.key) ∧ ¬ (k ∈ cs.map fun c => c.key) := mem_sortedDiff
  rw [show uncitedKeys cs bes =
      sortedDiff (bes.map fun e => e.key) (cs.map fun c => c.key) from rfl, h]
  simp [List.mem_map]

/-- C1: for every extracted citation list and bibliography-entry list, the
undefined_citation issues among `local_issues` enumerate, without
repetition, exactly the keys cited but absent from the bibliography, each
anchored at the first citation occurrence of its key (the `find?` result);
the uncited_bibliography_entry issues enumerate exactly the bibliography
keys never cited, each anchored at the file and line of an entry bearing
that key; and the two enumerated key sets are disjoint. -/
theorem local_issue_enumeration (cs : List Citation) (bes : List BibEntry) :
    (((localIssues cs bes).filter (fun i => i.itype == "undefined_citation")).map
        (fun i => i.key)).Nodup ∧
    (∀ k, k ∈ ((localIssues cs bes).filter
          (fun i => i.itype == "undefined_citation")).map (fun i => i.key) ↔
        ((∃ c ∈ cs, c.key = k) ∧ ¬ ∃ e ∈ bes, e.key = k)) ∧
    (∀ i ∈ (localIssues cs bes).filter (fun i => i.itype == "undefined_citation"),
        ∃ c, cs.find? (fun x : Citation => x.key == i.key) = some c ∧
          c.key = i.key ∧ i.file = c.file ∧ i.line = c.line) ∧
    (((localIssues cs bes).filter (fun i => i.itype == "uncited_bibliography_entry")).map
        (fun i => i.key)).Nodup ∧
    (∀ k, k ∈ ((localIssues cs bes).filter
          (fun i => i.itype == "uncited_bibliography_entry")).map (fun i => i.key) ↔
        ((∃ e ∈ bes, e.key = k) ∧ ¬ ∃ c ∈ cs, c.key = k)) ∧
    (∀ i ∈ (localIssues cs bes).filter (fun i => i.itype == "uncited_bibliography_entry"),
        ∃ e ∈ bes, e.key = i.key ∧ i.file = e.file ∧ i.line = e.line) ∧
    (∀ k, ¬ (k ∈ ((localIssues cs bes).filter
            (fun i => i.itype == "undefined_citation")).map (fun i => i.key) ∧
        k ∈ ((localIssues cs bes).filter
            (fun i => i.itype == "uncited_bibliography_entry")).map (fun i => i.key))) := by
  have hfu := filter_localIssues_undef cs bes
  have hfc := filter_localIssues_unc cs bes
  have hku : (undefinedIssues cs bes).map (fun i => i.key) = undefinedKeys cs bes :=
    keys_of_map_anchor (undefinedIssues_key cs) (undefinedKeys cs bes)
  have hkc : (uncitedIssues cs bes).map (fun i => i.key) = uncitedKeys cs bes :=
    keys_of_map_anchor (uncitedIssues_key bes) (uncitedKeys cs bes)
  refine ⟨?_, ?_, ?_, ?_, ?_, ?_, ?_⟩
  · rw [hfu, hku]
    exact nodup_sortedDiff _ _
  · intro k
    rw [hfu, hku]
    exact mem_undefinedKeys cs bes k
  · intro i hi
    rw [hfu] at hi
    obtain ⟨k, hk, rfl⟩ := List.mem_map.mp hi
    have hkc2 : k ∈ cs.map (fun c => c.key) := (mem_sortedDiff.mp hk).1
    obtain ⟨c1, hc1, hkey1⟩ := List.mem_map.mp hkc2
    have hsome : (cs.find? (fun c : Citation => c.key == k)).isSome :=
      List.find?_isSome.mpr ⟨c1, hc1, by rw [beq_iff_eq]; exact hkey1⟩
    obtain ⟨c0, heq⟩ := Option.isSome_iff_exists.mp hsome
    have hred := undefinedIssue_of_find heq
    rw [hred]
    have hc0key : c0.key = k := by
      have := List.find?_some heq
      rwa [beq_iff_eq] at this
    exact ⟨c0, heq, hc0key, rfl, rfl⟩
  · rw [hfc, hkc]
    exact nodup_sortedDiff _ _
  · intro k
    rw [hfc, hkc]
    exact mem_uncitedKeys cs bes k
  · intro i hi
    rw [hfc] at hi
    obtain ⟨k, hk, rfl⟩ := List.mem_map.mp hi
    have hkb : k ∈ bes.map (fun e => e.key) := (mem_sortedDiff.mp hk).1
    obtain ⟨e1, he1, hkey1⟩ := List.mem_map.mp hkb
    have hsome : (bes.reverse.find? (fun e : BibEntry => e.key == k)).isSome :=
      List.find?_isSome.mpr
        ⟨e1, List.mem_reverse.mpr he1, by rw [beq_iff_eq]; exact hkey1⟩
    obtain ⟨e0, heq⟩ := Option.isSome_iff_exists.mp hsome
    have heq2 : bibKeyLookup bes k = some e0 := heq
    have hred := uncitedIssue_of_lookup heq2
    rw [hred]
    have he0key : e0.key = k := by
      have := List.find?_some heq
      rwa [beq_iff_eq] at this
    exact ⟨e0, List.mem_reverse.mp (List.mem_of_find?_eq_some heq), he0key, rfl, rfl⟩
  · intro k hpair
    obtain ⟨h1, h2⟩ := hpair
    rw [hfu, hku] at h1
    rw [hfc, hkc] at h2
    exact ((mem_undefinedKeys cs bes k).mp h1).2 (((mem_uncitedKeys cs bes k).mp h2).1)

/-- C1 witness: the enumeration evaluated on a one-citation, one-entry
project: key "c" is cited but undefined, and entry "b" is uncited and
anchored at its own location. -/
theorem local_issue_enumeration_witness :
    ("c" ∈ ((localIssues [⟨"c", "citep", "main.tex", 3⟩]
          [⟨"b", "article", "refs.bib", 7, "", "", "", "", ""⟩]).filter
          (fun i => i.itype == "undefined_citation")).map (fun i => i.key)) ∧
    (∃ e ∈ [(⟨"b", "article", "refs.bib", 7, "", "", "", "", ""⟩ : BibEntry)],
        e.key = "b" ∧ ("refs.bib" : String) = e.file ∧ 7 = e.line) := by
  constructor
  · exact ((local_issue_enumeration
      [⟨"c", "citep", "main.tex", 3⟩]
      [⟨"b", "article", "refs.bib", 7, "", "", "", "", ""⟩]).2.1 "c").mpr (by decide)
  · exact (local_issue_enumeration
      [⟨"c", "citep", "main.tex", 3⟩]
      [⟨"b", "article", "refs.bib", 7, "", "", "", "", ""⟩]).2.2.2.2.2.1
      ⟨"uncited_bibliography_entry", "warning", "b", "refs.bib", 7, ""⟩ (by decide)

end VC

namespace VC

/-- C4 counterexample: two bibliography records share key "k" and nothing is
cited.  The claim says the uncited_bibliography_entry warning is anchored at
the first record ("a.bib", line 1); the run anchors it at the second
("b.bib", line 9), because the dict comprehension building `bib_key_map`
lets a later entry overwrite an earlier one. -/
theorem duplicate_key_anchor_cex :
    (localIssues []
        [⟨"k", "article", "a.bib", 1, "", "", "", "", ""⟩,
         ⟨"k", "article", "b.bib", 9, "", "", "", "", ""⟩]).map
        (fun i => (i.itype, i.file, i.line)) =
      [("uncited_bibliography_entry", "b.bib", 9)] ∧
    (localIssues []
        [⟨"k", "article", "a.bib", 1, "", "", "", "", ""⟩,
         ⟨"k", "article", "b.bib", 9, "", "", "", "", ""⟩]).map
        (fun i => (i.file, i.line)) ≠ [("a.bib", 1)] := by
  refine ⟨by decide, by decide⟩

/-- C4 (amended): when two parsed bibliography records share the same key,
the LAST occurrence wins: the uncited_bibliography_entry warning for that
key is anchored at the file and line of the last record bearing it (no
record after the anchoring one carries the same key). -/
theorem uncited_anchor_is_last_occurrence (cs : List Citation) (bes : List BibEntry) :
    ∀ i ∈ (localIssues cs bes).filter (fun i => i.itype == "uncited_bibliography_entry"),
      ∃ pre e post, bes = pre ++ e :: post ∧ e.key = i.key ∧
        i.file = e.file ∧ i.line = e.line ∧ ∀ e2 ∈ post, e2.key ≠ i.key := by
  intro i hi
  rw [filter_localIssues_unc] at hi
  obtain ⟨k, hk, rfl⟩ := List.mem_map.mp hi
  have hkb : k ∈ bes.map (fun e => e.key) := (mem_sortedDiff.mp hk).1
  obtain ⟨e1, he1, hkey1⟩ := List.mem_map.mp hkb
  have hsome : (bes.reverse.find? (fun e : BibEntry => e.key == k)).isSome :=
    List.find?_isSome.mpr
      ⟨e1, List.mem_reverse.mpr he1, by rw [beq_iff_eq]; exact hkey1⟩
  obtain ⟨e0, heq⟩ := Option.isSome_iff_exists.mp hsome
  have heq2 : bibKeyLookup bes k = some e0 := heq
  have hred := uncitedIssue_of_lookup heq2
  rw [hred]
  have he0key : e0.key = k := by
    have := List.find?_some heq
    rwa [beq_iff_eq] at this
  obtain ⟨l1, l2, hsplitEq, hall⟩ := find?_split heq
  refine ⟨l2.reverse, e0, l1.reverse, ?_, he0key, rfl, rfl, ?_⟩
  · have hb : bes = (l1 ++ e0 :: l2).reverse := by
      rw [← hsplitEq, List.reverse_reverse]
    rw [hb]
    simp
  · intro e2 he2 hcontra
    have he2l1 : e2 ∈ l1 := List.mem_reverse.mp he2
    have hfalse := hall e2 he2l1
    have hck : e2.key = k := hcontra
    rw [hck] at hfalse
    simp at hfalse

/-- C4 witness: the amended last-occurrence rule applied to the concrete
duplicate-key bibliography. -/
theorem uncited_anchor_is_last_occurrence_witness :
    ∃ pre e post,
      [(⟨"k", "article", "a.bib", 1, "", "", "", "", ""⟩ : BibEntry),
       ⟨"k", "article", "b.bib", 9, "", "", "", "", ""⟩] = pre ++ e :: post ∧
      e.key = "k" ∧ ("b.bib" : String) = e.file ∧ 9 = e.line ∧
      ∀ e2 ∈ post, e2.key ≠ "k" :=
  uncited_anchor_is_last_occurrence []
    [⟨"k", "article", "a.bib", 1, "", "", "", "", ""⟩,
     ⟨"k", "article", "b.bib", 9, "", "", "", "", ""⟩]
    ⟨"uncited_bibliography_entry", "warning", "k", "b.bib", 9, ""⟩ (by decide)

end VC

/-- Case-insensitive literal-prefix match (pattern given lower-case);
returns the remainder after the prefix. -/
def ciPref : List Char → List Char → Option (List Char)
  | [], s => some s
  | _ :: _, [] => none
  | p :: ps, c :: cs => if c.toLower = p then ciPref ps cs else none

/-- Python `re.sub(r"^https?://(dx\.)?doi\.org/", "", doi, flags=IGNORECASE)`:
strip one leading DOI-resolver URL if present, else return the input.  The
pattern is anchored, so at most one substitution happens; each optional part
is deterministic (on failure after taking an option, the non-option branch
cannot match either, since the required literals differ at the same
position). -/
def stripDoiUrl (sd : List Char) : List Char :=
  match (match ciPref "https://".data sd with
         | some r => some r
         | none => ciPref "http://".data sd) with
  | none => sd
  | some r1 =>
    match ciPref "doi.org/".data
        (match ciPref "dx.".data r1 with
         | some r => r
         | none => r1) with
    | some r3 => r3
    | none => sd

namespace VC

/-- Outcome of the single `_http_get_json` call of `_validate_by_doi`,
reduced to what the function reads from it: either an exception (caught and
put into the message) or the first element of the payload title list (the
empty string when absent). -/
inductive DoiOutcome where
  | fail (reason : String)
  | ok (remoteTitle : String)
deriving DecidableEq, Repr

/-- One item of the title-search payload as read by `_validate_by_title`:
the first element of its title list ("" when absent) and its DOI field ("". when absent). -/
structure RemoteItem where
  title : String
  doi : String
deriving DecidableEq, Repr

/-- Outcome of the `_http_get_json` call of `_validate_by_title`. -/
inductive TitleOutcome where
  | fail (reason : String)
  | ok (items : List RemoteItem)
deriving DecidableEq, Repr

/-- A per-entry validation result; `confidence` and the remote fields keep
the defaults `0` / `none` when the source dict omits them (`main` reads them
back with exactly those defaults).  The decimal rounding `round(score, 3)`
of the reported confidence is not modelled; it never feeds control flow. -/
structure VResult where
  status : String
  confidence : ℚ := 0
  message : String
  remoteDoi : Option String := none
  remoteTitle : Option String := none
deriving DecidableEq, Repr

/-- `_validate_by_doi`: strip the resolver URL from the stripped local DOI;
an empty result or a failed lookup is `not_found`; otherwise classify by the
title score against the returned canonical title with threshold 0.6. -/
def validateByDoi (entry : BibEntry) (oracle : DoiOutcome) : VResult :=
  if (stripDoiUrl (pyStrip entry.doi).data).asString = "" then
    ⟨"not_found", 0, "Empty DOI", none, none⟩
  else
    match oracle with
    | .fail r => ⟨"not_found", 0, "DOI lookup failed: " ++ r, none, none⟩
    | .ok remoteTitle =>
      if titleMatchScore entry.title remoteTitle ≥ mkRat 3 5 then
        ⟨"valid", titleMatchScore entry.title remoteTitle, "DOI verified in Crossref",
          some (stripDoiUrl (pyStrip entry.doi).data).asString, some remoteTitle⟩
      else
        ⟨"needs_correction", titleMatchScore entry.title remoteTitle,
          "DOI exists but title mismatch",
          some (stripDoiUrl (pyStrip entry.doi).data).asString, some remoteTitle⟩

/-- The best-candidate loop of `_validate_by_title`: keep the first item
that strictly improves the running best score (which starts at 0). -/
def bestLoop (t : String) : List RemoteItem → Option RemoteItem → ℚ → Option RemoteItem × ℚ
  | [], best, bs => (best, bs)
  | it :: its, best, bs =>
    if titleMatchScore t it.title > bs then bestLoop t its (some it) (titleMatchScore t it.title)
    else bestLoop t its best bs

/-- `_validate_by_title`: no local title means `not_found` without a call;
a failed lookup is `not_found`; no items is `likely_hallucinated`; no item
scoring above 0 is `likely_hallucinated`; a best score of at least 0.75 is
`valid` unless the local and remote DOI disagree (or the local one is
missing and the remote one present), which is `needs_correction`; a lower
best score is `needs_correction`. -/
def validateByTitle (entry : BibEntry) (oracle : TitleOutcome) : VResult :=
  if pyStrip entry.title = "" then
    ⟨"not_found", 0, "No title for remote validation", none, none⟩
  else
    match oracle with
    | .fail r => ⟨"not_found", 0, "Title lookup failed: " ++ r, none, none⟩
    | .ok items =>
      if items.isEmpty then
        ⟨"likely_hallucinated", 0, "No Crossref results for title", none, none⟩
      else
        match bestLoop entry.title items none 0 with
        | (none, _) => ⟨"likely_hallucinated", 0, "No usable Crossref match", none, none⟩
        | (some best, bestScore) =>
          if bestScore ≥ mkRat 3 4 then
            if entry.doi ≠ "" ∧ best.doi ≠ "" ∧
                pyLower (pyStrip entry.doi) ≠ pyLower best.doi then
              ⟨"needs_correction", bestScore, "Best title match suggests DOI correction",
                some best.doi, some best.title⟩
            else if entry.doi = "" ∧ best.doi ≠ "" then
              ⟨"needs_correction", bestScore, "Matching paper found; DOI can be added",
                some best.doi, some best.title⟩
            else
              ⟨"valid", bestScore, "Title validated against Crossref",
                some best.doi, some best.title⟩
          else
            ⟨"needs_correction", bestScore, "Only weak title match found",
              some best.doi, some best.title⟩

/-- The per-entry dispatch of `main` (remote branch): DOI first when
present; fall back to the title search exactly when the DOI path returned
status "not_found" and a title exists, keeping the fallback result unless
it is itself "not_found".  (The `result` local of the source is inlined;
the branches recompute the same pure value.) -/
def validateEntry (entry : BibEntry) (doiO : DoiOutcome) (titleO : TitleOutcome) : VResult :=
  if entry.doi ≠ "" then
    if (validateByDoi entry doiO).status = "not_found" ∧ entry.title ≠ "" then
      if (validateByTitle entry titleO).status ≠ "not_found" then validateByTitle entry titleO
      else validateByDoi entry doiO
    else validateByDoi entry doiO
  else if entry.title ≠ "" then validateByTitle entry titleO
  else ⟨"not_found", 0, "No title or DOI for remote validation", none, none⟩

/-- C3 counterexample: an entry whose DOI resolves, but to a canonical
title scoring 0 (below 0.6) against the local title.  The claim says the
title-search classification then replaces the identifier-path
classification; the run keeps the identifier-path "needs_correction" and
never consults the title search, which here would return "valid". -/
theorem doi_low_score_no_fallback_cex :
    (validateEntry
        ⟨"k", "article", "refs.bib", 1, "alpha beta gamma delta", "", "", "10.1000/xyz", ""⟩
        (.ok "totally different words here")
        (.ok [⟨"alpha beta gamma delta", "10.1000/xyz"⟩])).status = "needs_correction" ∧
    (validateByTitle
        ⟨"k", "article", "refs.bib", 1, "alpha beta gamma delta", "", "", "10.1000/xyz", ""⟩
        (.ok [⟨"alpha beta gamma delta", "10.1000/xyz"⟩])).status = "valid" ∧
    titleMatchScore "alpha beta gamma delta" "totally different words here" < mkRat 3 5 ∧
    validateEntry
        ⟨"k", "article", "refs.bib", 1, "alpha beta gamma delta", "", "", "10.1000/xyz", ""⟩
        (.ok "totally different words here")
        (.ok [⟨"alpha beta gamma delta", "10.1000/xyz"⟩]) ≠
      validateByTitle
        ⟨"k", "article", "refs.bib", 1, "alpha beta gamma delta", "", "", "10.1000/xyz", ""⟩
        (.ok [⟨"alpha beta gamma delta", "10.1000/xyz"⟩]) := by
  refine ⟨by decide, by decide, by decide, by decide⟩

/-- C3 (amended): for an entry with a DOI, the title-search fallback runs
exactly when the identifier path reports a lookup failure (status
"not_found"): any other identifier-path classification — including the
low-confidence "needs_correction" — stands; and on lookup failure with a
title present, the fallback classification replaces it unless the fallback
itself reports "not_found". -/
theorem fallback_only_on_lookup_failure (e : BibEntry) (dO : DoiOutcome) (tO : TitleOutcome)
    (hdoi : e.doi ≠ "") :
    ((validateByDoi e dO).status ≠ "not_found" → validateEntry e dO tO = validateByDoi e dO) ∧
    ((validateByDoi e dO).status = "not_found" → e.title ≠ "" →
      (validateByTitle e tO).status ≠ "not_found" →
      validateEntry e dO tO = validateByTitle e tO) := by
  constructor
  · intro h
    unfold validateEntry
    rw [if_pos hdoi, if_neg]
    intro hc
    exact h hc.1
  · intro h1 h2 h3
    unfold validateEntry
    rw [if_pos hdoi, if_pos ⟨h1, h2⟩, if_pos h3]

/-- C3 witness: the amended rule at a concrete entry whose DOI lookup times
out and whose title search succeeds. -/
theorem fallback_only_on_lookup_failure_witness :
    validateEntry
        ⟨"k", "article", "refs.bib", 1, "alpha beta gamma delta", "", "", "10.1000/xyz", ""⟩
        (.fail "timeout") (.ok [⟨"alpha beta gamma delta", "10.1000/xyz"⟩]) =
      validateByTitle
        ⟨"k", "article", "refs.bib", 1, "alpha beta gamma delta", "", "", "10.1000/xyz", ""⟩
        (.ok [⟨"alpha beta gamma delta", "10.1000/xyz"⟩]) :=
  (fallback_only_on_lookup_failure
      ⟨"k", "article", "refs.bib", 1, "alpha beta gamma delta", "", "", "10.1000/xyz", ""⟩
      (.fail "timeout") (.ok [⟨"alpha beta gamma delta", "10.1000/xyz"⟩])
      (by decide)).2 (by decide) (by decide) (by decide)

end VC

/-- Separator characters skipped between fields in `_parse_bib_fields`
(" \t\r\n,"). -/
def isSepChar (c : Char) : Bool :=
  c == ' ' || c == '\t' || c == '\x0d' || c == '\n' || c == ','

/-- Characters of a field name after its leading letter
(`[A-Za-z0-9_-]`). -/
def isNameChar (c : Char) : Bool :=
  c.isAlphanum || c == '_' || c == '-'

/-- The brace-depth scan shared by `_parse_bib_fields` (value branch) and
`_parse_bib_entries` (record body): consume characters maintaining the
depth, stopping after the brace that brings it to 0.  Returns the consumed
text (excluding that closing brace), the remaining input, and whether the
close was found; on end-of-input with positive depth the consumed text is
everything that was scanned (`fields_text[start:]` in the source). -/
def braceGo : Nat → List Char → List Char × List Char × Bool
  | _, [] => ([], [], false)
  | d, c :: cs =>
    let d2 := if c = '{' then d + 1 else if c = '}' then d - 1 else d
    if d2 = 0 then ([], cs, true)
    else
      let r := braceGo d2 cs
      (c :: r.1, r.2.1, r.2.2)

/-- The quoted-value scan of `_parse_bib_fields`: stop at a quote not
preceded by a backslash (`prev` is the previous character, initially the
opening quote); the closing quote stays in the remainder. -/
def quotedGo (prev : Char) : List Char → List Char × List Char
  | [] => ([], [])
  | c :: cs =>
    if c = '"' ∧ prev ≠ '\\' then ([], c :: cs)
    else
      let r := quotedGo c cs
      (c :: r.1, r.2)

namespace VC

/-- One pass of the `_parse_bib_fields` while-loop, on the remaining text:
skip separators; try the `name\s*=` pattern (on failure advance one
character); then read a braced, quoted or bare value and record the
lower-cased name with the whitespace-collapsed value.  Assignments are kept
in order; a later assignment to the same name overwrites (dict semantics,
see `getFieldD`).  Fuel: each iteration consumes at least one character. -/
def parseBibFieldsGo : Nat → List Char → List (String × String) → List (String × String)
  | 0, _, acc => acc
  | n + 1, r, acc =>
    match r.dropWhile isSepChar with
    | [] => acc
    | c :: r0 =>
      if c.isAlpha then
        let name := (c :: r0).takeWhile isNameChar
        match ((c :: r0).drop name.length).dropWhile isPyWs with
        | '=' :: r2 =>
          match r2.dropWhile isPyWs with
          | [] => acc
          | '{' :: r4 =>
            let s := braceGo 1 r4
            parseBibFieldsGo n s.2.1
              (acc ++ [((name.map Char.toLower).asString, pyCollapse s.1.asString)])
          | '"' :: r4 =>
            let s := quotedGo '"' r4
            let rest := match s.2 with
              | '"' :: t => t
              | other => other
            parseBibFieldsGo n rest
              (acc ++ [((name.map Char.toLower).asString, pyCollapse s.1.asString)])
          | c3 :: r4 =>
            let v := (c3 :: r4).takeWhile (fun x => ¬ (x == ',' || x == '\n' || x == '\x0d'))
            parseBibFieldsGo n ((c3 :: r4).drop v.length)
              (acc ++ [((name.map Char.toLower).asString, pyCollapse v.asString)])
        | _ => parseBibFieldsGo n r0 acc
      else parseBibFieldsGo n r0 acc

/-- `_parse_bib_fields` on a field text. -/
def parseBibFields (ft : String) : List (String × String) :=
  parseBibFieldsGo (ft.data.length + 1) ft.data []

/-- Python `fields.get(name, default)` over the recorded assignments: the
last assignment to a name wins; `none` when the name was never assigned. -/
def getField? (pairs : List (String × String)) (name : String) : Option String :=
  (pairs.reverse.find? (fun p => p.1 == name)).map Prod.snd

/-- Python `fields.get(name, "")`. -/
def getFieldD (pairs : List (String × String)) (name : String) : String :=
  (getField? pairs name).getD ""

/-- The record-header pattern `@(\w+)\s*\{` of `_parse_bib_entries`,
attempted at a position holding "@": returns the type word and the offset
of the opening brace from the "@". -/
def matchHeader (r : List Char) : Option (List Char × Nat) :=
  match r with
  | '@' :: r1 =>
    let w := r1.takeWhile isWordChar
    if w.isEmpty then none
    else
      let ws := (r1.drop w.length).takeWhile isPyWs
      match (r1.drop w.length).drop ws.length with
      | '{' :: _ => some (w, 1 + w.length + ws.length)
      | _ => none
  | _ => none

/-- One pass of the `_parse_bib_entries` while-loop over one file, at
absolute position `b` of `full`: find the next "@"; on a header match scan
the record body with the brace-depth scan; if the body never closes, STOP
and return the entries collected so far (`if depth != 0: break`); otherwise
split the body at its first comma into key and field text (no comma: skip
the record) and append the entry, anchored at the line of the "@".  Fuel:
each iteration advances the position. -/
def parseBibGo (full : List Char) (rel : String) : Nat → Nat → List BibEntry → List BibEntry
  | 0, _, acc => acc
  | n + 1, b, acc =>
    match (full.drop b).findIdx? (fun c => c == '@') with
    | none => acc
    | some off =>
      match matchHeader (full.drop (b + off)) with
      | none => parseBibGo full rel n (b + off + 1) acc
      | some (w, braceOff) =>
        let s := braceGo 1 (full.drop (b + off + braceOff + 1))
        if s.2.2 = false then acc
        else
          let j := full.length - s.2.1.length
          match splitAtChar ',' s.1 with
          | none => parseBibGo full rel n j acc
          | some (keyPart, fieldsText) =>
            let fields := parseBibFields fieldsText.asString
            parseBibGo full rel n j
              (acc ++ [{ key := (pyStripL keyPart).asString,
                         entryType := (w.map Char.toLower).asString,
                         file := rel,
                         line := countCh '\n' (full.take (b + off)) + 1,
                         title := getFieldD fields "title",
                         author := getFieldD fields "author",
                         year := getFieldD fields "year",
                         doi := getFieldD fields "doi",
                         arxiv := ((getField? fields "eprint").getD
                           ((getField? fields "arxiv").getD "")) }])

/-- `_parse_bib_entries` restricted to a single file's content. -/
def parseBibEntriesContent (content : String) (rel : String) : List BibEntry :=
  parseBibGo content.data rel (content.data.length + 1) 0 []

end VC

theorem countCh_cons (x c : Char) (l : List Char) :
    countCh x (c :: l) = (if c == x then 1 else 0) + countCh x l := by
  simp only [countCh, List.filter_cons]
  split <;> simp [Nat.add_comm]

/-- Partial-result behaviour of the brace-depth scan: if no prefix of the
input ever brings the depth to 0, the scan consumes the whole input and
reports the close as not found — it never fails. -/
theorem braceGo_eof_keeps_input : ∀ (s : List Char) (d : Nat), 1 ≤ d →
    (∀ n ≤ s.length, countCh '}' (s.take n) < countCh '{' (s.take n) + d) →
    braceGo d s = (s, [], false) := by
  intro s
  induction s with
  | nil => intro d _ _; rfl
  | cons c cs ih =>
    intro d hd h
    have h1 := h 1 (by simp)
    rw [List.take_succ_cons, List.take_zero] at h1
    by_cases hc1 : c = '{'
    · subst hc1
      have harg : ∀ n ≤ cs.length,
          countCh '}' (cs.take n) < countCh '{' (cs.take n) + (d + 1) := by
        intro n hn
        have hthis := h (n + 1) (by simpa using Nat.succ_le_succ hn)
        rw [List.take_succ_cons, countCh_cons, countCh_cons] at hthis
        simp at hthis
        omega
      have hrec := ih (d + 1) (by omega) harg
      have hne : ¬ (d + 1 = 0) := by omega
      simp [braceGo, hrec, hne]
    · by_cases hc2 : c = '}'
      · subst hc2
        have e1 : countCh '}' ['}'] = 1 := by decide
        have e2 : countCh '{' ['}'] = 0 := by decide
        rw [e1, e2] at h1
        have hd2 : 2 ≤ d := by omega
        have harg : ∀ n ≤ cs.length,
            countCh '}' (cs.take n) < countCh '{' (cs.take n) + (d - 1) := by
          intro n hn
          have hthis := h (n + 1) (by simpa using Nat.succ_le_succ hn)
          rw [List.take_succ_cons, countCh_cons, countCh_cons] at hthis
          simp at hthis
          omega
        have hrec := ih (d - 1) (by omega) harg
        have hne : ¬ (d - 1 = 0) := by omega
        simp [braceGo, hrec, hne]
      · have b1 : (c == '{') = false := beq_eq_false_iff_ne.mpr hc1
        have b2 : (c == '}') = false := beq_eq_false_iff_ne.mpr hc2
        have harg : ∀ n ≤ cs.length,
            countCh '}' (cs.take n) < countCh '{' (cs.take n) + d := by
          intro n hn
          have hthis := h (n + 1) (by simpa using Nat.succ_le_succ hn)
          rw [List.take_succ_cons, countCh_cons, countCh_cons, b1, b2] at hthis
          simp at hthis
          omega
        have hrec := ih d hd harg
        have hne : ¬ (d = 0) := by omega
        simp [braceGo, hrec, hc1, hc2, hne]

namespace VC

/-- C2 counterexample: a bibliography file whose second record's opening
brace is never closed at depth 0.  The claim says the unclosed record still
yields an entry from its partial body and that the record appearing after
it is still parsed; the run instead hits `if depth != 0: break`, keeps only
the first (well-formed) record, and produces no entry for "b" or "c". -/
theorem unclosed_record_drops_later_records_cex :
    ((parseBibEntriesContent "@misc\x7ba, title=\x7bT\x7d,\x7d\n@misc\x7bb,\n@misc\x7bc,\x7d"
        "refs.bib").map (fun e => e.key) = ["a"]) ∧
    "b" ∉ (parseBibEntriesContent "@misc\x7ba, title=\x7bT\x7d,\x7d\n@misc\x7bb,\n@misc\x7bc,\x7d"
        "refs.bib").map (fun e => e.key) ∧
    "c" ∉ (parseBibEntriesContent "@misc\x7ba, title=\x7bT\x7d,\x7d\n@misc\x7bb,\n@misc\x7bc,\x7d"
        "refs.bib").map (fun e => e.key) := by
  refine ⟨by decide, by decide, by decide⟩

/-- C2 (amended): the brace-depth scanner itself returns the substring
found so far when end-of-input is reached before the depth returns to 0
(first conjunct, the general law; second conjunct, its effect on a field
value: the unclosed braced value is kept in full).  At the RECORD level,
however, a record whose opening brace is never closed yields no entry and
stops the parsing of that file: entries collected before it are kept,
records after it are not parsed (third conjunct). -/
theorem brace_partial_field_and_record_stop :
    (∀ (s : List Char) (d : Nat), 1 ≤ d →
      (∀ n ≤ s.length, countCh '}' (s.take n) < countCh '{' (s.take n) + d) →
      braceGo d s = (s, [], false)) ∧
    parseBibFields "title=\x7bUnclosed value" = [("title", "Unclosed value")] ∧
    ((parseBibEntriesContent "@misc\x7ba, title=\x7bT\x7d,\x7d\n@misc\x7bb,\n@misc\x7bc,\x7d"
        "refs.bib").map (fun e => e.key) = ["a"]) :=
  ⟨braceGo_eof_keeps_input, by decide, by decide⟩

/-- C2 witness: the general partial-result law evaluated on a concrete
never-closing input at depth 1. -/
theorem brace_partial_field_and_record_stop_witness :
    braceGo 1 "ab\x7bc".data = ("ab\x7bc".data, [], false) :=
  brace_partial_field_and_record_stop.1 "ab\x7bc".data 1 (by decide) (by decide)

end VC

/-- Abstraction of the file system seen by the inclusion-tree resolvers
(`_collect_main_tex_tree` of `verify_content_targets.py` and the `walk` of
`_extract_sections` in `parse_latex_structure.py`): `files` are the
existing (resolved) files and `includes f` lists the successfully resolved
include targets of `f`, in textual order.  `_resolve_include` only ever
returns existing files, which is the closure property `incl_mem`. -/
structure IncGraph where
  files : List String
  includes : String → List String
  incl_mem : ∀ f t, t ∈ includes f → t ∈ files

/-- The recursive `walk` of `_collect_main_tex_tree`: skip an already
visited file, otherwise record it and recurse on its resolved includes in
order.  `st` is the `ordered` list (`visited` holds the same elements and
is only used for membership).  The fuel bounds the recursion depth; the
stabilization theorem below shows that `|files| + 1` levels always
suffice, which is the termination of the source recursion. -/
def walk (g : IncGraph) : Nat → String → List String → List String
  | 0, _, st => st
  | n + 1, p, st =>
    if p ∈ st then st
    else (g.includes p).foldl (fun acc t => walk g n t acc) (st ++ [p])

theorem walk_stop (g : IncGraph) (n : Nat) (p : String) (st : List String)
    (hp : p ∈ st) : walk g n p st = st := by
  cases n <;> simp [walk, hp]

theorem walk_extends (g : IncGraph) :
    ∀ (n : Nat) (p : String) (st : List String), ∃ u, walk g n p st = st ++ u := by
  intro n
  induction n with
  | zero => intro p st; exact ⟨[], by simp [walk]⟩
  | succ n ih =>
    intro p st
    by_cases hp : p ∈ st
    · exact ⟨[], by simp [walk, hp]⟩
    · have haux : ∀ (l : List String) (acc : List String),
          ∃ u, l.foldl (fun a t => walk g n t a) acc = acc ++ u := by
        intro l
        induction l with
        | nil => intro acc; exact ⟨[], by simp⟩
        | cons t ts ihl =>
          intro acc
          obtain ⟨u1, h1⟩ := ih t acc
          obtain ⟨u2, h2⟩ := ihl (acc ++ u1)
          exact ⟨u1 ++ u2, by simp [h1, h2]⟩
      obtain ⟨u, hu⟩ := haux (g.includes p) (st ++ [p])
      refine ⟨[p] ++ u, ?_⟩
      simp only [walk, if_neg hp]
      rw [hu]
      simp
theorem walk_length_le (g : IncGraph) (n : Nat) (p : String) (st : List String) :
    st.length ≤ (walk g n p st).length := by
  obtain ⟨u, hu⟩ := walk_extends g n p st
  simp [hu]

theorem walk_sub (g : IncGraph) :
    ∀ (n : Nat) (p : String) (st : List String), p ∈ g.files →
      (∀ x ∈ st, x ∈ g.files) → ∀ x ∈ walk g n p st, x ∈ g.files := by
  intro n
  induction n with
  | zero => intro p st _ hst x hx; exact hst x hx
  | succ n ih =>
    intro p st hp hst x hx
    by_cases hmem : p ∈ st
    · rw [walk_stop g _ p st hmem] at hx
      exact hst x hx
    · have hst2 : ∀ y ∈ st ++ [p], y ∈ g.files := by
        intro y hy
        rcases List.mem_append.mp hy with h | h
        · exact hst y h
        · rw [List.mem_singleton.mp h]; exact hp
      have haux : ∀ (l : List String), (∀ t ∈ l, t ∈ g.files) →
          ∀ (acc : List String), (∀ y ∈ acc, y ∈ g.files) →
          ∀ y ∈ l.foldl (fun a t => walk g n t a) acc, y ∈ g.files := by
        intro l
        induction l with
        | nil => intro _ acc hacc y hy; exact hacc y hy
        | cons t ts ihl =>
          intro hl acc hacc y hy
          rw [List.foldl_cons] at hy
          exact ihl (fun t2 ht2 => hl t2 (List.mem_cons_of_mem t ht2))
            (walk g n t acc)
            (ih t acc (hl t (List.mem_cons_self t ts)) hacc) y hy
      rw [show walk g (n + 1) p st =
        (g.includes p).foldl (fun a t => walk g n t a) (st ++ [p]) by
          simp [walk, hmem]] at hx
      exact haux (g.includes p) (fun t ht => g.incl_mem p t ht) (st ++ [p]) hst2 x hx

theorem walk_nodup (g : IncGraph) :
    ∀ (n : Nat) (p : String) (st : List String), st.Nodup → (walk g n p st).Nodup := by
  intro n
  induction n with
  | zero => intro p st h; exact h
  | succ n ih =>
    intro p st h
    by_cases hmem : p ∈ st
    · rw [walk_stop g _ p st hmem]; exact h
    · have h2 : (st ++ [p]).Nodup := by
        simp [List.nodup_append, h, hmem]
      have haux : ∀ (l : List String) (acc : List String), acc.Nodup →
          (l.foldl (fun a t => walk g n t a) acc).Nodup := by
        intro l
        induction l with
        | nil => intro acc hacc; exact hacc
        | cons t ts ihl =>
          intro acc hacc
          rw [List.foldl_cons]
          exact ihl (walk g n t acc) (ih t acc hacc)
      rw [show walk g (n + 1) p st =
        (g.includes p).foldl (fun a t => walk g n t a) (st ++ [p]) by
          simp [walk, hmem]]
      exact haux (g.includes p) (st ++ [p]) h2

theorem mem_of_covering (g : IncGraph) (st : List String) (p : String)
    (hnd : st.Nodup) (hsub : ∀ x ∈ st, x ∈ g.files)
    (hlen : g.files.dedup.length ≤ st.length) (hp : p ∈ g.files) : p ∈ st := by
  have hsub2 : st ⊆ g.files.dedup := by
    intro x hx
    exact List.mem_dedup.mpr (hsub x hx)
  have hperm : List.Perm st g.files.dedup :=
    (hnd.subperm hsub2).perm_of_length_le hlen
  exact hperm.mem_iff.mpr (List.mem_dedup.mpr hp)

/-- Fuel-irrelevance of `walk`: as soon as the fuel covers the number of
files not yet visited, the result no longer depends on it.  This is the
termination of the source recursion: its depth is bounded by the number of
existing files, because every level of recursion visits a new file. -/
theorem walk_stable (g : IncGraph) :
    ∀ (k n m : Nat) (p : String) (st : List String),
      st.Nodup → (∀ x ∈ st, x ∈ g.files) → p ∈ g.files →
      g.files.dedup.length - st.length ≤ k → k ≤ n → k ≤ m →
      walk g n p st = walk g m p st := by
  intro k
  induction k using Nat.strong_induction_on with
  | _ k ihk =>
    intro n m p st hnd hsub hp hbk hkn hkm
    by_cases hmem : p ∈ st
    · rw [walk_stop g n p st hmem, walk_stop g m p st hmem]
    · have hk1 : 1 ≤ k := by
        rcases Nat.eq_zero_or_pos k with hk0 | hk0
        · exfalso
          rw [hk0] at hbk
          exact hmem (mem_of_covering g st p hnd hsub (by omega) hp)
        · exact hk0
      obtain ⟨n1, rfl⟩ : ∃ n1, n = n1 + 1 := ⟨n - 1, by omega⟩
      obtain ⟨m1, rfl⟩ : ∃ m1, m = m1 + 1 := ⟨m - 1, by omega⟩
      have hst2nd : (st ++ [p]).Nodup := by simp [List.nodup_append, hnd, hmem]
      have hst2sub : ∀ x ∈ st ++ [p], x ∈ g.files := by
        intro x hx
        rcases List.mem_append.mp hx with h | h
        · exact hsub x h
        · rw [List.mem_singleton.mp h]; exact hp
      have haux : ∀ (l : List String), (∀ t ∈ l, t ∈ g.files) →
          ∀ (acc : List String), acc.Nodup → (∀ x ∈ acc, x ∈ g.files) →
          g.files.dedup.length - acc.length ≤ k - 1 →
          l.foldl (fun a t => walk g n1 t a) acc =
            l.foldl (fun a t => walk g m1 t a) acc := by
        intro l
        induction l with
        | nil => intro _ acc _ _ _; rfl
        | cons t ts ihl =>
          intro hl acc haccnd haccsub haccb
          have hstep : walk g n1 t acc = walk g m1 t acc :=
            ihk (k - 1) (by omega) n1 m1 t acc haccnd haccsub
              (hl t (List.mem_cons_self t ts)) haccb (by omega) (by omega)
          rw [List.foldl_cons, List.foldl_cons, hstep]
          exact ihl (fun t2 ht2 => hl t2 (List.mem_cons_of_mem t ht2))
            (walk g m1 t acc)
            (walk_nodup g m1 t acc haccnd)
            (walk_sub g m1 t acc (hl t (List.mem_cons_self t ts)) haccsub)
            (by
              have := walk_length_le g m1 t acc
              omega)
      rw [show walk g (n1 + 1) p st =
        (g.includes p).foldl (fun a t => walk g n1 t a) (st ++ [p]) by
          simp [walk, hmem]]
      rw [show walk g (m1 + 1) p st =
        (g.includes p).foldl (fun a t => walk g m1 t a) (st ++ [p]) by
          simp [walk, hmem]]
      exact haux (g.includes p) (fun t ht => g.incl_mem p t ht) (st ++ [p])
        hst2nd hst2sub (by simp; omega)

/-- C7: for every inclusion graph (cycles included), the traversal from an
entry file visits each resolved file at most once (the ordered result list
has no duplicates, at every recursion-depth allowance) and terminates: once
the depth allowance reaches the number of existing files, the result never
changes again. -/
theorem inclusion_walk_visits_once_and_terminates (g : IncGraph) (entry : String)
    (hentry : entry ∈ g.files) :
    (∀ n, (walk g n entry []).Nodup) ∧
    (∀ n, g.files.dedup.length ≤ n →
      walk g n entry [] = walk g (g.files.dedup.length) entry []) := by
  constructor
  · intro n
    exact walk_nodup g n entry [] (by simp)
  · intro n hn
    exact walk_stable g (g.files.dedup.length) n (g.files.dedup.length) entry []
      (by simp) (by simp) hentry (by simp) hn (le_refl _)

/-- Two files that mutually include each other, the cycle scenario named by
the spec. -/
def mutualG : IncGraph where
  files := ["a.tex", "b.tex"]
  includes := fun s =>
    if s = "a.tex" then ["b.tex"] else if s = "b.tex" then ["a.tex"] else []
  incl_mem := by
    intro f t ht
    by_cases h1 : f = "a.tex"
    · simp [h1] at ht
      simp [ht]
    · by_cases h2 : f = "b.tex"
      · simp [h1, h2] at ht
        simp [ht]
      · simp [h1, h2] at ht

/-- C7 witness: on the two-file mutual-inclusion cycle the traversal is
duplicate-free and already stable at depth allowance 2. -/
theorem inclusion_walk_visits_once_and_terminates_witness :
    (walk mutualG 2 "a.tex" []).Nodup ∧
    walk mutualG 5 "a.tex" [] = walk mutualG 2 "a.tex" [] :=
  ⟨(inclusion_walk_visits_once_and_terminates mutualG "a.tex" (by decide)).1 2,
   (inclusion_walk_visits_once_and_terminates mutualG "a.tex" (by decide)).2 5 (by decide)⟩

namespace PS

/-- A citation record of `parse_latex_structure.py`. -/
structure PCitation where
  key : String
  command : String
  file : String
  line : Nat
deriving DecidableEq, Repr

/-- A bibliography-key record of `_extract_bib_keys` (line-based). -/
structure PBibKey where
  key : String
  file : String
  line : Nat
deriving DecidableEq, Repr

/-- A cross-reference record of `_extract_refs`. -/
structure PRef where
  key : String
  file : String
  line : Nat
deriving DecidableEq, Repr

/-- A figure/table environment record of `_extract_environments`; the
source dict's `has_label`/`has_caption` are `bool(label)`/`bool(caption)`
at construction and are recomputed here as emptiness tests. -/
structure PEnv where
  file : String
  line : Nat
  label : String
  caption : String
deriving DecidableEq, Repr

/-- An element of the `_build_issues` output; locator and detail fields are
optional exactly where the source writes `None` or omits the key. -/
structure PIssue where
  itype : String
  severity : String
  key : Option String := none
  label : Option String := none
  file : Option String := none
  line : Option Nat := none
  expected : Option String := none
deriving DecidableEq, Repr

/-- The label/caption issues one figure contributes (`for fig in figures`
loop of `_build_issues`). -/
def figIssueOf (fig : PEnv) : List PIssue :=
  (if fig.label = "" then
    [{ itype := "figure_missing_label", severity := "error",
       file := some fig.file, line := some fig.line }]
  else if ¬ List.isPrefixOf "fig:".data fig.label.data then
    [{ itype := "figure_label_prefix", severity := "warning",
       file := some fig.file, line := some fig.line,
       label := some fig.label, expected := some "fig:*" }]
  else []) ++
  (if fig.caption = "" then
    [{ itype := "figure_missing_caption", severity := "warning",
       file := some fig.file, line := some fig.line,
       label := if fig.label = "" then none else some fig.label }]
  else [])

/-- The label/caption issues one table contributes. -/
def tabIssueOf (tab : PEnv) : List PIssue :=
  (if tab.label = "" then
    [{ itype := "table_missing_label", severity := "error",
       file := some tab.file, line := some tab.line }]
  else if ¬ List.isPrefixOf "tab:".data tab.label.data then
    [{ itype := "table_label_prefix", severity := "warning",
       file := some tab.file, line := some tab.line,
       label := some tab.label, expected := some "tab:*" }]
  else []) ++
  (if tab.caption = "" then
    [{ itype := "table_missing_caption", severity := "warning",
       file := some tab.file, line := some tab.line,
       label := if tab.label = "" then none else some tab.label }]
  else [])

/-- The full issue sequence computed by `_build_issues` before the cap:
undefined citations, uncited entries (both sorted set differences, anchored
by `_first_by_key`), per-figure and per-table label/caption policy issues,
then unreferenced figure and table labels. -/
def buildIssuesFull (cs : List PCitation) (bs : List PBibKey) (rs : List PRef)
    (figs tabs : List PEnv) : List PIssue :=
  ((sortedDiff (cs.map (fun c => c.key)) (bs.map (fun b => b.key))).map fun k =>
    match cs.find? (fun c : PCitation => c.key == k) with
    | some c => { itype := "undefined_citation", severity := "error",
                  key := some k, file := some c.file, line := some c.line }
    | none => { itype := "undefined_citation", severity := "error", key := some k }) ++
  ((sortedDiff (bs.map (fun b => b.key)) (cs.map (fun c => c.key))).map fun k =>
    match bs.find? (fun b : PBibKey => b.key == k) with
    | some b => { itype := "uncited_bibliography_entry", severity := "warning",
                  key := some k, file := some b.file, line := some b.line }
    | none => { itype := "uncited_bibliography_entry", severity := "warning",
                key := some k }) ++
  (figs.flatMap figIssueOf) ++
  (tabs.flatMap tabIssueOf) ++
  ((sortedDiff ((figs.filter (fun f => f.label ≠ "")).map (fun f => f.label))
      ((rs.map (fun r => r.key)).filter
        (fun k => List.isPrefixOf "fig:".data k.data))).map fun label =>
    match figs.find? (fun f : PEnv => f.label == label) with
    | some f => { itype := "unreferenced_figure", severity := "warning",
                  label := some label, file := some f.file, line := some f.line }
    | none => { itype := "unreferenced_figure", severity := "warning",
                label := some label }) ++
  ((sortedDiff ((tabs.filter (fun t => t.label ≠ "")).map (fun t => t.label))
      ((rs.map (fun r => r.key)).filter
        (fun k => List.isPrefixOf "tab:".data k.data))).map fun label =>
    match tabs.find? (fun t : PEnv => t.label == label) with
    | some t => { itype := "unreferenced_table", severity := "warning",
                  label := some label, file := some t.file, line := some t.line }
    | none => { itype := "unreferenced_table", severity := "warning",
                label := some label })

/-- `_build_issues` as called: the computed sequence truncated to
`issues[:max_issues]`; `main` passes `max(1, args.max_issues)` with
argparse default 500, and emits the result with no truncation marker. -/
def buildIssues (cs : List PCitation) (bs : List PBibKey) (rs : List PRef)
    (figs tabs : List PEnv) (maxIssues : Nat) : List PIssue :=
  (buildIssuesFull cs bs rs figs tabs).take maxIssues

/-- C10: the emitted issue list is always the length-at-most-max(1,
requested) prefix of the full computed issue sequence; with two undefined
citation keys and a requested maximum of 1, the issue for the second key is
silently absent from the report, so the emitted list no longer enumerates
the citation-key set difference. -/
theorem issue_list_truncation :
    (∀ (cs : List PCitation) (bs : List PBibKey) (rs : List PRef)
        (figs tabs : List PEnv) (m : Nat),
      (∃ t, buildIssues cs bs rs figs tabs (max 1 m) ++ t =
        buildIssuesFull cs bs rs figs tabs) ∧
      (buildIssues cs bs rs figs tabs (max 1 m)).length ≤ max 1 m) ∧
    (buildIssues [⟨"k1", "cite", "m.tex", 1⟩, ⟨"k2", "cite", "m.tex", 2⟩]
        [] [] [] [] (max 1 1)).map (fun i => i.key) = [some "k1"] ∧
    (buildIssuesFull [⟨"k1", "cite", "m.tex", 1⟩, ⟨"k2", "cite", "m.tex", 2⟩]
        [] [] [] []).map (fun i => i.key) = [some "k1", some "k2"] := by
  refine ⟨?_, by decide, by decide⟩
  intro cs bs rs figs tabs m
  constructor
  · exact ⟨(buildIssuesFull cs bs rs figs tabs).drop (max 1 m),
      List.take_append_drop _ _⟩
  · exact List.length_take_le _ _

end PS

namespace VT

/-- Attempt of `\begin\{name\*?\}` at the head: returns the matched length.
The lazy star is deterministic here: a present "*" must be consumed for
"}" to follow. -/
def matchBeginEnv (name : List Char) (s : List Char) : Option Nat :=
  if List.isPrefixOf ("\\begin\x7b".data ++ name) s then
    match s.drop (7 + name.length) with
    | '*' :: '}' :: _ => some (7 + name.length + 2)
    | '}' :: _ => some (7 + name.length + 1)
    | _ => none
  else none

/-- Attempt of `\end\{name\*?\}` at the head. -/
def matchEndEnv (name : List Char) (s : List Char) : Option Nat :=
  if List.isPrefixOf ("\\end\x7b".data ++ name) s then
    match s.drop (5 + name.length) with
    | '*' :: '}' :: _ => some (5 + name.length + 2)
    | '}' :: _ => some (5 + name.length + 1)
    | _ => none
  else none

/-- First position (and matched length) at which an anchored matcher
succeeds, as a regex engine scanning left to right. -/
def findIdxMatch (m : List Char → Option Nat) : List Char → Option (Nat × Nat)
  | [] => match m [] with
    | some l => some (0, l)
    | none => none
  | c :: cs => match m (c :: cs) with
    | some l => some (0, l)
    | none => (findIdxMatch m cs).map (fun p => (p.1 + 1, p.2))

/-- One match of the non-greedy environment pattern
`\begin\{name\*?\}(.*?)\end\{name\*?\}` (DOTALL): the earliest begin tag
followed by an end tag, with the shortest body.  Returns the start index
and the whole match length. -/
def findNextEnv (name : List Char) (s : List Char) : Option (Nat × Nat) :=
  match findIdxMatch (matchBeginEnv name) s with
  | none => none
  | some (i, bl) =>
    match findIdxMatch (matchEndEnv name) (s.drop (i + bl)) with
    | none => none
    | some (j, el) => some (i, bl + j + el)

/-- First `\label\{([^}]+)\}` capture in a block (`label_re.search`): at
each position a nonempty brace-delimited capture is required, otherwise the
scan moves on. -/
def findLabel : List Char → Option (List Char)
  | [] => none
  | c :: cs =>
    match (if List.isPrefixOf "\\label\x7b".data (c :: cs) then
        match splitAtChar '}' ((c :: cs).drop 7) with
        | some (cap, _) => if cap.isEmpty then none else some cap
        | none => none
      else none) with
    | some cap => some cap
    | none => findLabel cs

/-- Attempt of `\caption(?:\[[^\]]*\])?\{([^}]*)\}` (DOTALL) at the head. -/
def matchCaptionAt (s : List Char) : Option (List Char) :=
  if List.isPrefixOf "\\caption".data s then
    match (match s.drop 8 with
           | '[' :: t => (splitAtChar ']' t).map Prod.snd
           | other => some other) with
    | some ('{' :: t) => (splitAtChar '}' t).map Prod.fst
    | _ => none
  else none

/-- First caption capture in a block (`caption_re.search`). -/
def findCaption : List Char → Option (List Char)
  | [] => none
  | c :: cs =>
    match matchCaptionAt (c :: cs) with
    | some cap => some cap
    | none => findCaption cs

/-- A floating-environment record of `_extract_envs`
(file, 1-based line of the opening, stripped label, collapsed caption,
raw block). -/
structure VEnv where
  file : String
  line : Nat
  label : String
  caption : String
  content : String
deriving DecidableEq, Repr

/-- Build the record for one matched block. -/
def mkEnvRec (rel : String) (line : Nat) (blk : List Char) : VEnv where
  file := rel
  line := line
  label := match findLabel blk with
    | some cap => pyStrip cap.asString
    | none => ""
  caption := match findCaption blk with
    | some cap => pyCollapse cap.asString
    | none => ""
  content := blk.asString

/-- The `env_re.finditer` loop of `_extract_envs` over one file: collect
each non-overlapping match in order, anchored at 1 + the number of newlines
before its start.  Fuel: every match has positive length. -/
def extractEnvsGo (full : List Char) (name : List Char) (rel : String) :
    Nat → Nat → List VEnv
  | 0, _ => []
  | n + 1, b =>
    match findNextEnv name (full.drop b) with
    | none => []
    | some (i, len) =>
      mkEnvRec rel (countCh '\n' (full.take (b + i)) + 1) ((full.drop (b + i)).take len) ::
        extractEnvsGo full name rel n (b + i + len)

/-- `_extract_envs` on one file's content. -/
def extractEnvs (content : String) (rel : String) (name : String) : List VEnv :=
  extractEnvsGo content.data name.data rel (content.data.length + 1) 0

/-- Numeric value of a run of decimal digits. -/
def natOfDigits (ds : List Char) : Nat :=
  ds.foldl (fun a c => a * 10 + (c.toNat - 48)) 0

/-- Attempt of `width\s*=\s*(\d+(?:\.\d+)?)\s*\\(?:columnwidth|textwidth)`
at the head: returns the captured number text and its value.  Greedy digit
runs and the optional fraction are deterministic (digits cannot overlap
with what must follow). -/
def matchWidthAt (s : List Char) : Option (List Char × ℚ) :=
  if List.isPrefixOf "width".data s then
    match (s.drop 5).dropWhile isPyWs with
    | '=' :: r2 =>
      let r3 := r2.dropWhile isPyWs
      let ds := r3.takeWhile Char.isDigit
      if ds.isEmpty then none
      else
        let fr : List Char × List Char :=
          match r3.drop ds.length with
          | '.' :: t =>
            let fd := t.takeWhile Char.isDigit
            if fd.isEmpty then ([], r3.drop ds.length) else (fd, t.drop fd.length)
          | other => ([], other)
        match fr.2.dropWhile isPyWs with
        | '\\' :: r7 =>
          if List.isPrefixOf "columnwidth".data r7 ∨ List.isPrefixOf "textwidth".data r7 then
            some ((if fr.1.isEmpty then ds else ds ++ '.' :: fr.1),
              mkRat (natOfDigits ds * 10 ^ fr.1.length + natOfDigits fr.1) (10 ^ fr.1.length))
          else none
        | _ => none
    | _ => none
  else none

/-- `re.search` for the width pattern over a block. -/
def findWidth : List Char → Option (List Char × ℚ)
  | [] => none
  | c :: cs =>
    match matchWidthAt (c :: cs) with
    | some r => some r
    | none => findWidth cs

/-- `re.search(r"\\hspace\s*\{-", content)` as a Boolean. -/
def hasNegHspace : List Char → Bool
  | [] => false
  | c :: cs =>
    (List.isPrefixOf "\\hspace".data (c :: cs) ∧
      List.isPrefixOf "\x7b-".data (((c :: cs).drop 7).dropWhile isPyWs)) ||
    hasNegHspace cs

/-- A cross-reference record of `_extract_refs` in
`verify_content_targets.py`. -/
structure VRef where
  key : String
  file : String
  line : Nat
deriving DecidableEq, Repr

/-- An issue of `_verify_figures`/`_verify_tables`; optional fields are
present exactly where the source dict includes them. -/
structure VIssue where
  itype : String
  severity : String
  file : String
  line : Nat
  label : Option String := none
  expected : Option String := none
  value : Option String := none
deriving DecidableEq, Repr

/-- An entity row of `_verify_figures`/`_verify_tables`. -/
structure VEntity where
  file : String
  line : Nat
  label : String
  caption : String
  refCount : Nat
deriving DecidableEq, Repr

/-- The entity row for one figure or table. -/
def entityOf (refs : List VRef) (fig : VEnv) : VEntity where
  file := fig.file
  line := fig.line
  label := fig.label
  caption := fig.caption
  refCount := if fig.label = "" then 0
    else (refs.filter (fun r => r.key == fig.label)).length

/-- The issues one figure contributes in the `_verify_figures` loop, in
source order: label chain (missing / bad prefix / unreferenced), caption
chain (missing / too short), overfull width heuristic, negative-hspace
heuristic. -/
def figIssuesFor (refs : List VRef) (fig : VEnv) : List VIssue :=
  (if fig.label = "" then
    [{ itype := "missing_label", severity := "error", file := fig.file, line := fig.line }]
  else if ¬ List.isPrefixOf "fig:".data fig.label.data then
    [{ itype := "label_prefix", severity := "warning", file := fig.file, line := fig.line,
       label := some fig.label, expected := some "fig:*" }]
  else if fig.label ∉ refs.map (fun r => r.key) then
    [{ itype := "unreferenced", severity := "warning", file := fig.file, line := fig.line,
       label := some fig.label }]
  else []) ++
  (if fig.caption = "" then
    [{ itype := "missing_caption", severity := "warning", file := fig.file, line := fig.line,
       label := if fig.label = "" then none else some fig.label }]
  else if fig.caption.length < 20 then
    [{ itype := "caption_too_short", severity := "info", file := fig.file, line := fig.line,
       label := if fig.label = "" then none else some fig.label }]
  else []) ++
  (match findWidth fig.content.data with
   | some (txt, v) =>
     if v > 1 then
       [{ itype := "overflow_width", severity := "warning", file := fig.file, line := fig.line,
          label := if fig.label = "" then none else some fig.label,
          value := some txt.asString }]
     else []
   | none => []) ++
  (if hasNegHspace fig.content.data then
    [{ itype := "negative_hspace", severity := "warning", file := fig.file, line := fig.line,
       label := if fig.label = "" then none else some fig.label }]
  else [])

/-- The `_verify_figures` result (entities, issues) over already-extracted
figures. -/
def verifyFigures (figs : List VEnv) (refs : List VRef) : List VEntity × List VIssue :=
  (figs.map (entityOf refs), figs.flatMap (figIssuesFor refs))

/-- `_verify_figures` on one file's content. -/
def verifyFiguresContent (content : String) (rel : String) (refs : List VRef) :
    List VEntity × List VIssue :=
  verifyFigures (extractEnvs content rel "figure") refs

end VT

namespace VT

/-- The condition `width_match and float(width_match.group(1)) > 1.0` of
the width heuristic, as one Boolean. -/
def widthOverflow (s : List Char) : Bool :=
  match findWidth s with
  | some p => decide (p.2 > 1)
  | none => false

theorem findIdxMatch_correct {m : List Char → Option Nat} :
    ∀ {s : List Char} {i l : Nat}, findIdxMatch m s = some (i, l) →
      m (s.drop i) = some l := by
  intro s
  induction s with
  | nil =>
    intro i l h
    unfold findIdxMatch at h
    split at h
    · rename_i l0 hm
      obtain ⟨rfl, rfl⟩ : i = 0 ∧ l0 = l := by
        constructor <;> [exact (Prod.ext_iff.mp (Option.some.injEq _ _ ▸ h :
          (0, l0) = (i, l))).1.symm;
          exact (Prod.ext_iff.mp (Option.some.injEq _ _ ▸ h : (0, l0) = (i, l))).2]
      simpa using hm
    · exact absurd h (by simp)
  | cons c cs ih =>
    intro i l h
    unfold findIdxMatch at h
    split at h
    · rename_i l0 hm
      have h2 : (0, l0) = (i, l) := by simpa using h
      obtain ⟨h3, h4⟩ := Prod.ext_iff.mp h2
      simp only at h3 h4
      subst h3
      subst h4
      simpa using hm
    · rename_i hm
      rw [Option.map_eq_some'] at h
      obtain ⟨p, hrec, heq⟩ := h
      obtain ⟨h3, h4⟩ := Prod.ext_iff.mp heq
      simp only at h3 h4
      subst h3
      subst h4
      rw [List.drop_succ_cons]
      exact ih hrec

/-- Every record the extraction loop produces is built by `mkEnvRec` from a
block starting where the begin tag matches, anchored at 1 + the number of
newlines before that position. -/
theorem mem_extractEnvsGo (full name : List Char) (rel : String) :
    ∀ (fuel b : Nat) (fig : VEnv), fig ∈ extractEnvsGo full name rel fuel b →
      ∃ k len, (matchBeginEnv name (full.drop k)).isSome ∧
        fig = mkEnvRec rel (countCh '\n' (full.take k) + 1) ((full.drop k).take len) := by
  intro fuel
  induction fuel with
  | zero => intro b fig h; exact absurd h (by simp [extractEnvsGo])
  | succ n ih =>
    intro b fig h
    unfold extractEnvsGo at h
    split at h
    · exact absurd h (by simp)
    · rename_i i len he
      rcases List.mem_cons.mp h with rfl | htail
      · refine ⟨b + i, len, ?_, rfl⟩
        unfold findNextEnv at he
        split at he
        · exact absurd he (by simp)
        · rename_i i0 bl hb
          split at he
          · exact absurd he (by simp)
          · rename_i j el hend
            have hcorr := findIdxMatch_correct hb
            have h2 : (i0, bl + j + el) = (i, len) := by simpa using he
            have h3 : i0 = i := (Prod.ext_iff.mp h2).1
            subst h3
            rw [List.drop_drop] at hcorr
            simp [hcorr]
      · exact ih (b + i + len) fig htail


/-- C8 counterexample: a figure with neither a label command nor a caption
command, whose body inserts negative horizontal space.  The run yields
THREE issues (missing_label, missing_caption, negative_hspace), not exactly
two as claimed. -/
theorem figure_missing_both_three_issues_cex :
    (extractEnvs "\\begin\x7bfigure\x7d\n\\hspace\x7b-1em\x7d\n\\end\x7bfigure\x7d"
        "m.tex" "figure").map (fun f => f.content) =
      ["\\begin\x7bfigure\x7d\n\\hspace\x7b-1em\x7d\n\\end\x7bfigure\x7d"] ∧
    findLabel "\\begin\x7bfigure\x7d\n\\hspace\x7b-1em\x7d\n\\end\x7bfigure\x7d".data = none ∧
    findCaption "\\begin\x7bfigure\x7d\n\\hspace\x7b-1em\x7d\n\\end\x7bfigure\x7d".data = none ∧
    ((verifyFiguresContent "\\begin\x7bfigure\x7d\n\\hspace\x7b-1em\x7d\n\\end\x7bfigure\x7d"
        "m.tex" []).2).map (fun i => (i.itype, i.severity)) =
      [("missing_label", "error"), ("missing_caption", "warning"),
       ("negative_hspace", "warning")] ∧
    ((verifyFiguresContent "\\begin\x7bfigure\x7d\n\\hspace\x7b-1em\x7d\n\\end\x7bfigure\x7d"
        "m.tex" []).2).length ≠ 2 := by
  refine ⟨by decide, by decide, by decide, by decide, by decide⟩

/-- C8 (amended): an extracted figure environment containing neither a
label command nor a caption command, and whose body triggers neither layout
heuristic, contributes exactly two issues — missing_label (error) and
missing_caption (warning) — both carrying the figure's file and 1-based
line, which is the line of the environment's opening (1 + the newlines
before the position where the begin tag matches). -/
theorem figure_without_label_or_caption_two_issues (content rel : String)
    (refs : List VRef) :
    ∀ fig ∈ extractEnvs content rel "figure",
      findLabel fig.content.data = none →
      findCaption fig.content.data = none →
      widthOverflow fig.content.data = false →
      hasNegHspace fig.content.data = false →
      figIssuesFor refs fig =
        [{ itype := "missing_label", severity := "error",
           file := fig.file, line := fig.line },
         { itype := "missing_caption", severity := "warning",
           file := fig.file, line := fig.line }] ∧
      ∃ k, (matchBeginEnv "figure".data (content.data.drop k)).isSome ∧
        fig.line = countCh '\n' (content.data.take k) + 1 := by
  intro fig hmem hl hc hw hh
  obtain ⟨k, len, hbeg, rfl⟩ := mem_extractEnvsGo content.data "figure".data rel
    (content.data.length + 1) 0 fig hmem
  refine ⟨?_, k, hbeg, rfl⟩
  have hl2 : findLabel ((content.data.drop k).take len) = none := hl
  have hc2 : findCaption ((content.data.drop k).take len) = none := hc
  have hw2 : widthOverflow ((content.data.drop k).take len) = false := hw
  have hh2 : hasNegHspace ((content.data.drop k).take len) = false := hh
  have e1 : (mkEnvRec rel (countCh '\n' (content.data.take k) + 1)
      ((content.data.drop k).take len)).label = "" := by
    simp [mkEnvRec, hl2]
  have e2 : (mkEnvRec rel (countCh '\n' (content.data.take k) + 1)
      ((content.data.drop k).take len)).caption = "" := by
    simp [mkEnvRec, hc2]
  have e3 : (mkEnvRec rel (countCh '\n' (content.data.take k) + 1)
      ((content.data.drop k).take len)).content.data =
      (content.data.drop k).take len := rfl
  cases hfw : findWidth ((content.data.drop k).take len) with
  | none => simp [figIssuesFor, e1, e2, e3, hfw, hh2]
  | some p =>
    have hnp : ¬ (p.2 > 1) := by
      unfold widthOverflow at hw2
      rw [hfw] at hw2
      simpa using hw2
    simp [figIssuesFor, e1, e2, e3, hfw, hnp, hh2]

/-- C8 witness: the amended rule on a minimal bare figure environment. -/
theorem figure_without_label_or_caption_two_issues_witness :
    figIssuesFor []
        ⟨"m.tex", 1, "", "", "\\begin\x7bfigure\x7d\nBody text\n\\end\x7bfigure\x7d"⟩ =
      [⟨"missing_label", "error", "m.tex", 1, none, none, none⟩,
       ⟨"missing_caption", "warning", "m.tex", 1, none, none, none⟩] ∧
    ∃ k, (matchBeginEnv "figure".data
        ("\\begin\x7bfigure\x7d\nBody text\n\\end\x7bfigure\x7d".data.drop k)).isSome ∧
      (1 : Nat) = countCh '\n'
        ("\\begin\x7bfigure\x7d\nBody text\n\\end\x7bfigure\x7d".data.take k) + 1 :=
  figure_without_label_or_caption_two_issues
    "\\begin\x7bfigure\x7d\nBody text\n\\end\x7bfigure\x7d" "m.tex" []
    ⟨"m.tex", 1, "", "", "\\begin\x7bfigure\x7d\nBody text\n\\end\x7bfigure\x7d"⟩
    (by decide) (by decide) (by decide) (by decide) (by decide)

end VT

/-- Line-break characters of Python `str.splitlines`. -/
def isLineBreakCh (c : Char) : Bool :=
  c == '\n' || c == '\x0d' || c == '\x0b' || c == '\x0c' ||
  c == '\x1c' || c == '\x1d' || c == '\x1e' || c == '\x85' ||
  c == '\u2028' || c == '\u2029'

/-- Python `str.splitlines`: `\r\n` is one break; a trailing break adds no
empty line.  `acc` is the reversed current line. -/
def splitLinesGo (acc : List Char) : List Char → List String
  | [] => if acc.isEmpty then [] else [acc.reverse.asString]
  | '\x0d' :: '\n' :: rest => acc.reverse.asString :: splitLinesGo [] rest
  | c :: rest =>
    if isLineBreakCh c then acc.reverse.asString :: splitLinesGo [] rest
    else splitLinesGo (c :: acc) rest

/-- Python `str.splitlines` (note `"".splitlines() == []`). -/
def splitLinesPy (s : String) : List String :=
  splitLinesGo [] s.data

/-- Python substring test `p in s` on character lists. -/
def isInfixB : List Char → List Char → Bool
  | p, [] => p.isEmpty
  | p, c :: cs => List.isPrefixOf p (c :: cs) || isInfixB p cs

/-- Python `enumerate(lines, 1)`. -/
def enumFrom1 : Nat → List String → List (Nat × String)
  | _, [] => []
  | n, x :: xs => (n, x) :: enumFrom1 (n + 1) xs

/-- Case-insensitive anchored match of a lower-case pattern. -/
def ciMatchesAt : List Char → List Char → Bool
  | [], _ => true
  | _ :: _, [] => false
  | p :: ps, c :: cs => c.toLower == p && ciMatchesAt ps cs

/-- One position of a `\b(alt1|alt2|...)\b` IGNORECASE search: some
alternative matches here with a non-word character (or an edge) on both
sides.  `prev` is the character before this position. -/
def boundaryHitAt (pats : List (List Char)) (prev : Option Char) (s : List Char) : Bool :=
  pats.any (fun p =>
    ciMatchesAt p s &&
    (match prev with
     | none => true
     | some pc => !isWordChar pc) &&
    (match s.drop p.length with
     | [] => true
     | c :: _ => !isWordChar c))

/-- `re.search` for a word-boundary alternation, as a Boolean. -/
def boundaryScan (pats : List (List Char)) : Option Char → List Char → Bool
  | _, [] => false
  | prev, c :: cs => boundaryHitAt pats prev (c :: cs) || boundaryScan pats (some c) cs

/-- `placeholder_re.search(line)` of `_verify_section`
(`\b(TODO|TBD|FIXME|XXX)\b`, IGNORECASE). -/
def placeholderHit (line : String) : Bool :=
  boundaryScan ["todo".data, "tbd".data, "fixme".data, "xxx".data] none line.data

/-- `claim_re.search(line)` of `_verify_section` (strong claim phrases,
IGNORECASE, word-bounded). -/
def claimHit (line : String) : Bool :=
  boundaryScan ["we show".data, "we propose".data, "our method".data,
    "results show".data, "outperform".data, "state of the art".data] none line.data

/-- Index of the last newline in a list, if any. -/
def lastNlIdx (l : List Char) : Option Nat :=
  (l.reverse.findIdx? (fun c => c == '\n')).map (fun i => l.length - 1 - i)

/-- Python `re.split(r"\n\s*\n", content)`: a separator is a newline, then
greedy whitespace backtracked so that it ends at the last newline of the
whitespace run.  `acc` is the reversed current piece; fuel: every separator
consumes at least two characters, every other step one. -/
def splitBlankGo : Nat → List Char → List Char → List String
  | 0, acc, rest => [(acc.reverse ++ rest).asString]
  | _ + 1, acc, [] => [acc.reverse.asString]
  | n + 1, acc, '\n' :: rest =>
    (match lastNlIdx (rest.takeWhile isPyWs) with
     | some k => acc.reverse.asString :: splitBlankGo n [] (rest.drop (k + 1))
     | none => splitBlankGo n ('\n' :: acc) rest)
  | n + 1, acc, c :: rest => splitBlankGo n (c :: acc) rest

/-- `re.split(r"\n\s*\n", s)`. -/
def splitBlank (s : String) : List String :=
  splitBlankGo (s.data.length + 1) [] s.data

namespace VT

/-- One alternative of the section-heading pattern
`\(section|subsection|subsubsection)\*?\{([^}]+)\}`, tried after the
backslash: the command word, an optional star, then a nonempty braced
name. -/
def trySecWord (w : List Char) (r0 : List Char) : Option (List Char × List Char) :=
  if List.isPrefixOf w r0 then
    match (match r0.drop w.length with
           | '*' :: t => t
           | other => other) with
    | '{' :: t =>
      match splitAtChar '}' t with
      | some (cap, _) => if cap.isEmpty then none else some (w, cap)
      | none => none
    | _ => none
  else none

/-- Anchored attempt of the section pattern; alternatives in source
order. -/
def matchSecAt (s : List Char) : Option (List Char × List Char) :=
  match s with
  | '\\' :: r0 =>
    match trySecWord "section".data r0 with
    | some r => some r
    | none =>
      match trySecWord "subsection".data r0 with
      | some r => some r
      | none => trySecWord "subsubsection".data r0
  | _ => none

/-- `SECTION_RE.search` on one comment-stripped line. -/
def findSec : List Char → Option (List Char × List Char)
  | [] => none
  | c :: cs =>
    match matchSecAt (c :: cs) with
    | some r => some r
    | none => findSec cs

/-- A section record of `_extract_sections` in `verify_content_targets.py`:
`level` is the matched command word, as the source stores it; `content` is
the newline-join of the comment-stripped body lines. -/
structure Sec where
  name : String
  level : String
  file : String
  line : Nat
  content : String
deriving DecidableEq, Repr

/-- Flush the section being accumulated (name, level, line, body lines). -/
def flushSec (rel : String) : Option (String × String × Nat × List String) → List Sec
  | none => []
  | some (nm, lv, l0, cls) => [⟨nm, lv, rel, l0, String.intercalate "\n" cls⟩]

/-- The per-line loop of `_extract_sections`: a heading line closes the
current section and opens a new one; any other line is appended (already
comment-stripped) to the current section's body. -/
def extractSectionsGo (rel : String) :
    Nat → Option (String × String × Nat × List String) → List String → List Sec
  | _, pending, [] => flushSec rel pending
  | ln, pending, line :: rest =>
    match findSec (stripComment line).data with
    | some (w, cap) =>
      flushSec rel pending ++
        extractSectionsGo rel (ln + 1) (some (pyStrip cap.asString, w.asString, ln, [])) rest
    | none =>
      match pending with
      | some (nm, lv, l0, cls) =>
        extractSectionsGo rel (ln + 1) (some (nm, lv, l0, cls ++ [stripComment line])) rest
      | none => extractSectionsGo rel (ln + 1) none rest

/-- `_extract_sections` on one file's content. -/
def extractSections (content : String) (rel : String) : List Sec :=
  extractSectionsGo rel 1 none (splitLinesPy content)

/-- An entity row of `_verify_section`. -/
structure SecEntity where
  name : String
  file : String
  line : Nat
  wordCount : Nat
deriving DecidableEq, Repr

/-- An issue of `_verify_section`; `sec` is the source dict's "section"
key. -/
structure SecIssue where
  itype : String
  severity : String
  sec : String
  line : Option Nat := none
  content : Option String := none
  wordCount : Option Nat := none
  minimum : Option Nat := none
deriving DecidableEq, Repr

/-- The `_verify_section` result; `availableSections` is present only in
the not-found branch. -/
structure SecOut where
  entities : List SecEntity
  issues : List SecIssue
  availableSections : Option (List String) := none
deriving DecidableEq, Repr

/-- The body checks of the found branch of `_verify_section`: word-count
minimum, placeholder lines, unsupported strong-claim lines, overlong
paragraphs. -/
def sectionBodyIssues (secName : String) (content : String) (minWords : Nat) :
    List SecIssue :=
  (if (pySplit content).length < minWords then
    [{ itype := "section_too_short", severity := "warning", sec := secName,
       wordCount := some (pySplit content).length, minimum := some minWords }]
  else []) ++
  ((enumFrom1 1 (splitLinesPy content)).flatMap fun pr =>
    if placeholderHit pr.2 then
      [{ itype := "placeholder_text", severity := "warning", sec := secName,
         line := some pr.1, content := some (pyStrip pr.2) }]
    else []) ++
  ((enumFrom1 1 (splitLinesPy content)).flatMap fun pr =>
    if pyStrip pr.2 ≠ "" ∧ claimHit (pyStrip pr.2) ∧
        ¬ isInfixB "\\cite".data (pyStrip pr.2).data ∧
        ¬ isInfixB "\\ref".data (pyStrip pr.2).data then
      [{ itype := "potential_unsupported_claim", severity := "info", sec := secName,
         line := some pr.1, content := some (pyStrip pr.2) }]
    else []) ++
  ((((splitBlank content).map pyStrip).filter (fun p => p ≠ "")).flatMap fun p =>
    if (pySplit p).length > 220 then
      [{ itype := "paragraph_too_long", severity := "info", sec := secName,
         wordCount := some (pySplit p).length }]
    else [])

/-- `_verify_section` over extracted sections: the checked section is
`next((s for s in sections if section_name.lower() in s["name"].lower()),
None)`; with no match, one section_not_found error plus the list of
available section names. -/
def verifySectionOn (sections : List Sec) (target : String) (minWords : Nat) : SecOut :=
  match sections.find? (fun s => isInfixB (pyLower target).data (pyLower s.name).data) with
  | none =>
    { entities := [],
      issues := [{ itype := "section_not_found", severity := "error", sec := target }],
      availableSections := some (sections.map (fun s => s.name)) }
  | some m =>
    { entities := [⟨m.name, m.file, m.line, (pySplit m.content).length⟩],
      issues := sectionBodyIssues m.name m.content minWords }

/-- `_verify_section` on one file's content. -/
def verifySectionContent (content rel target : String) (minWords : Nat) : SecOut :=
  verifySectionOn (extractSections content rel) target minWords

end VT

namespace VT

/-- C9: when a section is targeted by name, the checked section is the
first extracted section whose name contains the requested name as a
case-insensitive substring (no earlier section matches); when none
matches, the result is exactly one section_not_found error, an empty
entity list, and the list of all available section names. -/
theorem section_target_selection (sections : List Sec) (target : String) (mw : Nat) :
    (∀ m, sections.find?
        (fun s => isInfixB (pyLower target).data (pyLower s.name).data) = some m →
      (verifySectionOn sections target mw).entities =
        [⟨m.name, m.file, m.line, (pySplit m.content).length⟩] ∧
      (verifySectionOn sections target mw).availableSections = none ∧
      isInfixB (pyLower target).data (pyLower m.name).data = true ∧
      ∃ pre post, sections = pre ++ m :: post ∧
        ∀ s ∈ pre, isInfixB (pyLower target).data (pyLower s.name).data = false) ∧
    (sections.find?
        (fun s => isInfixB (pyLower target).data (pyLower s.name).data) = none →
      verifySectionOn sections target mw =
        { entities := [],
          issues := [{ itype := "section_not_found", severity := "error", sec := target }],
          availableSections := some (sections.map (fun s => s.name)) }) := by
  constructor
  · intro m hm
    refine ⟨?_, ?_, @List.find?_some Sec
      (fun s => isInfixB (pyLower target).data (pyLower s.name).data) m sections hm, ?_⟩
    · unfold verifySectionOn
      rw [hm]
    · unfold verifySectionOn
      rw [hm]
    · obtain ⟨l1, l2, heq, hall⟩ := find?_split hm
      exact ⟨l1, l2, heq, hall⟩
  · intro hn
    unfold verifySectionOn
    rw [hn]

/-- C9 witness: a two-section list; target "intro" selects the second
section (the first contains no match), target "zzz" selects none. -/
theorem section_target_selection_witness :
    (verifySectionOn
        [⟨"Background", "section", "main.tex", 2, ""⟩,
         ⟨"Introduction", "section", "main.tex", 5, "Body"⟩] "intro" 3).entities =
      [⟨"Introduction", "main.tex", 5, 1⟩] ∧
    verifySectionOn
        [⟨"Background", "section", "main.tex", 2, ""⟩,
         ⟨"Introduction", "section", "main.tex", 5, "Body"⟩] "zzz" 3 =
      { entities := [],
        issues := [{ itype := "section_not_found", severity := "error", sec := "zzz" }],
        availableSections := some ["Background", "Introduction"] } :=
  ⟨((section_target_selection
      [⟨"Background", "section", "main.tex", 2, ""⟩,
       ⟨"Introduction", "section", "main.tex", 5, "Body"⟩] "intro" 3).1
      ⟨"Introduction", "section", "main.tex", 5, "Body"⟩ (by decide)).1,
   (section_target_selection
      [⟨"Background", "section", "main.tex", 2, ""⟩,
       ⟨"Introduction", "section", "main.tex", 5, "Body"⟩] "zzz" 3).2 (by decide)⟩

end VT
